import Mathlib

/-!
Shallow embedding of the stack deployment core of `databricks_cli/stack/api.py`
(class `StackApi`), together with the collaborator surface it drives
(`databricks_cli/jobs/api.py`, `databricks_cli/workspace/api.py`).

Python dicts with a fixed set of inspected keys are embedded as structures with
`Option` fields (`none` = key absent); `d[k]` access is `dictGet`, which raises
`KeyError` on an absent key exactly as Python does.  The remote workspace state
reached through the HTTP client (an external collaborator per the spec) is the
`Env` structure; every remote call is appended to `Env.calls` so that theorems
can speak about which calls a deploy issues.  Exceptions are `Except Err`.
The process state touched by `StackApi.deploy` (working directory, local JSON
files) is the `Sys` structure.
-/

namespace StackSpec

/-- Exception taxonomy: `StackError` raised by stack/api.py itself, `HTTPError`
raised by the transport when a remote call fails, `KeyError` for a missing
Python dict key. -/
inductive Err where
  | stackError (msg : String)
  | httpError (msg : String)
  | keyError (key : String)
  deriving DecidableEq, Repr

/-- Python dict access `d[k]` on a dict modelled with an `Option` field:
`KeyError` when the key is absent. -/
def dictGet {α : Type} (v : Option α) (k : String) : Except Err α :=
  match v with
  | some x => Except.ok x
  | none => Except.error (Err.keyError k)

/-- The open `properties` map of a resource.  The code only ever reads
string-valued keys from it (`name`, `source_path`, `path`, `language`,
`format`, `object_type`) and otherwise passes it around opaquely, so an
association list of string keys to string values suffices. -/
abbrev Props := List (String × String)

/-- Python `d[k]` / `k in d` on a properties dict (keys are unique in a
Python dict, so first match is the match). -/
def Props.lookup : Props → String → Option String
  | [], _ => none
  | (k2, v) :: rest, k => if k2 = k then some v else Props.lookup rest k

/-- A job on the remote server, as returned by `get_job` / listed by name:
`job_id`, its `settings`, plus the metadata `put_job` reads for its warning. -/
structure Job where
  job_id : Nat
  settings : Props
  creator_user_name : String
  created_time : Int
  deriving DecidableEq, Repr

/-- `physical_id` values produced by the two drivers:
`deploy_job` returns the dict `\x7b'job_id': N\x7d`, `deploy_workspace` the dict
`\x7b'path': P\x7d`. -/
inductive PhysicalId where
  | jobId (n : Nat)
  | wsPath (path : String)
  deriving DecidableEq, Repr

/-- An object in the remote workspace tree (path plus object type), the shape
`get_status_json` reports. -/
structure WsObject where
  path : String
  object_type : String
  deriving DecidableEq, Repr

/-- `deploy_output` of a resource status: the `get_job` response for jobs, the
workspace `get_status` response for workspace assets. -/
inductive DeployOutput where
  | jobOut (j : Job)
  | wsOut (o : WsObject)
  deriving DecidableEq, Repr

/-- One entry of the configuration's `resources` list.  Fields are `Option`
because `validate_config` checks their presence. -/
structure ResourceConfig where
  id : Option String
  service : Option String
  properties : Option Props
  deriving DecidableEq, Repr

/-- One entry of the status document's `deployed` list, as built by
`deploy_resource` (`timestamp` is `datetime.now()` as an integer clock). -/
structure ResourceStatus where
  id : Option String
  service : Option String
  physical_id : Option PhysicalId
  deploy_output : Option DeployOutput
  timestamp : Option Nat
  deriving DecidableEq, Repr

/-- The one dict shape used both for the stack configuration and for the stack
status: `deploy_config` turns the former into the latter by `dict.update`. -/
structure StackDoc where
  name : Option String
  resources : Option (List ResourceConfig)
  deployed : Option (List ResourceStatus)
  cli_version : Option String
  deriving DecidableEq, Repr

/-- Python truthiness of the (possibly empty) status dict: `if stack_status:`
is false for `None` and for an empty dict. -/
def StackDoc.truthy (d : StackDoc) : Bool :=
  d.name.isSome || d.resources.isSome || d.deployed.isSome || d.cli_version.isSome

/-- A remote call issued through the jobs or workspace client, recorded in
order. -/
inductive RCall where
  | createJobCall (settings : Props)
  | resetJobCall (job_id : Nat) (new_settings : Props)
  | getJobCall (job_id : Nat)
  | listJobsCall (nm : String)
  | mkdirsCall (dir : String)
  | importCall (src dst : String) (language fmt : Option String) (overwrite : Bool)
  | importDirCall (src dst : String) (overwrite : Bool)
  | wsStatusCall (p : String)
  deriving DecidableEq, Repr

/-- The external world the drivers act on: the remote jobs service, the remote
workspace tree, the local filesystem directory set (`os.path.isdir`), a clock
for `datetime.now()`, and the log of issued remote calls. -/
structure Env where
  jobs : List Job
  next_job_id : Nat
  ws_objects : List WsObject
  local_dirs : List String
  now : Nat
  calls : List RCall
  deriving DecidableEq, Repr

def logCall (e : Env) (c : RCall) : Env :=
  { e with calls := e.calls ++ [c] }

def findJob (e : Env) (job_id : Nat) : Option Job :=
  e.jobs.find? (fun j => j.job_id == job_id)

/-- The job record the server creates for the given settings. -/
def createdJob (e : Env) (settings : Props) : Job :=
  { job_id := e.next_job_id, settings := settings,
    creator_user_name := "user", created_time := (e.now : Int) * 1000 }

/-- `JobsApi.create_job` (POST /jobs/create): the server creates a job with a
fresh `job_id` and returns it. -/
def create_job (e : Env) (settings : Props) : Nat × Env :=
  let e1 := logCall e (RCall.createJobCall settings)
  let e2 := { e1 with jobs := e1.jobs ++ [createdJob e settings], next_job_id := e1.next_job_id + 1 }
  (e.next_job_id, e2)

/-- `JobsApi.reset_job` (POST /jobs/reset): replaces the settings of the job
with the given `job_id`; the server answers with an HTTP error if no such job
exists. -/
def reset_job (e : Env) (job_id : Nat) (new_settings : Props) : Except Err Env :=
  let e1 := logCall e (RCall.resetJobCall job_id new_settings)
  match findJob e1 job_id with
  | none => Except.error (Err.httpError "RESOURCE_DOES_NOT_EXIST")
  | some _ =>
      let newjobs := e1.jobs.map
        (fun j => if j.job_id == job_id then { j with settings := new_settings } else j)
      Except.ok { e1 with jobs := newjobs }

/-- `JobsApi.get_job`: fetches the job by id, HTTP error if it does not
exist. -/
def get_job (e : Env) (job_id : Nat) : Except Err (Job × Env) :=
  let e1 := logCall e (RCall.getJobCall job_id)
  match findJob e1 job_id with
  | none => Except.error (Err.httpError "RESOURCE_DOES_NOT_EXIST")
  | some j => Except.ok (j, e1)

/-- Modelled from the spec: `JobsApi._list_jobs_by_name` is called by
`StackApi.put_job` but is not defined under src (the job-list-by-name
collaborator API of section 6); per the spec it searches the remote jobs by the
declared name, returning every job whose settings name equals it. -/
def _list_jobs_by_name (e : Env) (nm : String) : List Job × Env :=
  (e.jobs.filter (fun j => j.settings.lookup "name" == some nm),
   logCall e (RCall.listJobsCall nm))

/-- Insert or replace a workspace object at its path. -/
def upsertWs (l : List WsObject) (o : WsObject) : List WsObject :=
  if l.any (fun x => x.path == o.path) then
    l.map (fun x => if x.path == o.path then o else x)
  else l ++ [o]

/-- `WorkspaceApi.mkdirs`: makes the directory exist remotely. -/
def ws_mkdirs (e : Env) (dir : String) : Env :=
  let e1 := logCall e (RCall.mkdirsCall dir)
  if e1.ws_objects.any (fun o => o.path == dir) then e1
  else { e1 with ws_objects := e1.ws_objects ++ [{ path := dir, object_type := "DIRECTORY" }] }

/-- `WorkspaceApi.import_workspace`: imports the local file as a notebook at
the target path. -/
def import_workspace (e : Env) (src dst : String) (language fmt : Option String)
    (overwrite : Bool) : Env :=
  let e1 := logCall e (RCall.importCall src dst language fmt overwrite)
  { e1 with ws_objects := upsertWs e1.ws_objects { path := dst, object_type := "NOTEBOOK" } }

/-- `WorkspaceApi.import_workspace_dir`, collapsed to its effect on the target
path: it calls `mkdirs(target_path)` first and then imports the children (the
child imports are not observed by any claim). -/
def import_workspace_dir (e : Env) (src dst : String) (overwrite : Bool) : Env :=
  let e1 := logCall e (RCall.importDirCall src dst overwrite)
  { e1 with ws_objects := upsertWs e1.ws_objects { path := dst, object_type := "DIRECTORY" } }

/-- `WorkspaceApi.get_status_json`: the remote status of the object at the
path, HTTP error if it does not exist. -/
def get_status_json (e : Env) (p : String) : Except Err (WsObject × Env) :=
  let e1 := logCall e (RCall.wsStatusCall p)
  match e1.ws_objects.find? (fun o => o.path == p) with
  | none => Except.error (Err.httpError "RESOURCE_DOES_NOT_EXIST")
  | some o => Except.ok (o, e1)

/-- Modelled from the spec: `WorkspaceLanguage.to_language_and_format`
(workspace/types.py is not under src) guesses language and format from the
local file extension; unknown extensions yield nothing. -/
def to_language_and_format (p : String) : Option (String × String) :=
  if p.endsWith ".py" then some ("PYTHON", "SOURCE")
  else if p.endsWith ".scala" then some ("SCALA", "SOURCE")
  else if p.endsWith ".sql" then some ("SQL", "SOURCE")
  else if p.endsWith ".r" then some ("R", "SOURCE")
  else none

/-- `os.path.dirname`: everything before the final slash. -/
def dirname (p : String) : String :=
  String.intercalate "/" (p.splitOn "/").dropLast

def JOBS_SERVICE : String := "jobs"
def WORKSPACE_SERVICE : String := "workspace"
def STACK_STATUS_INSERT : String := "deployed"

/-- Modelled from the spec: the CLI version string constant
(`databricks_cli/version.py` is not under src); its value is never examined,
only stored under the `cli_version` key. -/
def CLI_VERSION : String := "0.8.0"

/-- `StackApi.update_job`: resets the job with `job_id` to the given
settings. -/
def update_job (e : Env) (job_settings : Props) (job_id : Nat) : Except Err Env :=
  reset_job e job_id job_settings

/-- `StackApi.put_job`: raises `StackError` when the settings carry no name;
otherwise lists remote jobs with the same name, aborting on more than one
match, updating (and adopting) a single match with a warning, and creating a
new job when there is no match. -/
def put_job (e : Env) (job_settings : Props) : Except Err (Nat × Env) :=
  match job_settings.lookup "name" with
  | none => Except.error (Err.stackError "Please supply name in job resource resource_properties")
  | some job_name =>
    let r := _list_jobs_by_name e job_name
    match r.1, r.2 with
    | _ :: _ :: _, _ =>
        Except.error (Err.stackError "Multiple jobs with the same name already exist, aborting stack deployment")
    | [existing_job], e1 => do
        let e2 ← update_job e1 job_settings existing_job.job_id
        Except.ok (existing_job.job_id, e2)
    | [], e1 =>
        let c := create_job e1 job_settings
        Except.ok (c.1, c.2)

/-- The branch of `deploy_job` selecting the job id: with a (truthy) prior
`physical_id`, `job_id = physical_id['job_id']` (KeyError when the dict has
no such key) followed by the in-place update; without one, `put_job`. -/
def jobIdForDeploy (e : Env) (job_settings : Props) (physical_id : Option PhysicalId) :
    Except Err (Nat × Env) :=
  match physical_id with
  | some pid => do
      let job_id ← match pid with
        | PhysicalId.jobId n => Except.ok n
        | PhysicalId.wsPath _ => Except.error (Err.keyError "job_id")
      let e1 ← update_job e job_settings job_id
      Except.ok (job_id, e1)
  | none => put_job e job_settings

/-- `StackApi.deploy_job`: with a (truthy) prior `physical_id`, reads its
`job_id` key and updates that job in place; without one, calls `put_job`.  In
both cases it then fetches the job as the deploy output and returns
`\x7b'job_id': job_id\x7d` as the physical id. -/
def deploy_job (e : Env) (resource_properties : Props) (physical_id : Option PhysicalId) :
    Except Err ((PhysicalId × DeployOutput) × Env) := do
  let job_settings := resource_properties
  let r ← jobIdForDeploy e job_settings physical_id
  let g ← get_job r.2 r.1
  Except.ok ((PhysicalId.jobId r.1, DeployOutput.jobOut g.1), g.2)

/-- The `try: ... except KeyError: raise StackError` property reads at the
top of `deploy_workspace`. -/
def requireProp (resource_properties : Props) (k : String) : Except Err String :=
  match resource_properties.lookup k with
  | some v => Except.ok v
  | none => Except.error (Err.stackError (k ++ " does not exist in workspace resource properties"))

/-- The import dispatch of `deploy_workspace`: a notebook is imported after
`mkdirs` of its parent directory, a directory is imported recursively, any
other object type imports nothing. -/
def wsImportStep (e : Env) (object_type local_path workspace_path : String)
    (language fmt : Option String) (overwrite : Bool) : Env :=
  if object_type == "NOTEBOOK" then
    import_workspace (ws_mkdirs e (dirname workspace_path)) local_path workspace_path
      language fmt overwrite
  else if object_type == "DIRECTORY" then
    import_workspace_dir e local_path workspace_path overwrite
  else e

/-- The path-change echo of `deploy_workspace` reads `physical_id['path']` on
a truthy prior physical id: a prior id without the `path` key raises
`KeyError`. -/
def checkWsPathChange (physical_id : Option PhysicalId) : Except Err Unit :=
  match physical_id with
  | some (PhysicalId.jobId _) => Except.error (Err.keyError "path")
  | _ => Except.ok ()

/-- `StackApi.deploy_workspace`: reads `source_path` and `path` (KeyError
becomes `StackError`), guesses language/format from the extension with
per-key property overrides, infers the object type from `os.path.isdir` with a
property override, imports a notebook (after `mkdirs` of its parent) or a
directory, compares a truthy prior physical id path, and returns
`\x7b'path': workspace_path\x7d` with the remote object status as output. -/
def deploy_workspace (e : Env) (resource_properties : Props) (physical_id : Option PhysicalId)
    (overwrite : Bool) : Except Err ((PhysicalId × DeployOutput) × Env) := do
  let local_path ← requireProp resource_properties "source_path"
  let workspace_path ← requireProp resource_properties "path"
  let lang_fmt := to_language_and_format local_path
  let language0 : Option String := lang_fmt.map (fun x => x.1)
  let fmt0 : Option String := lang_fmt.map (fun x => x.2)
  let language := match resource_properties.lookup "language" with
    | some l => some l
    | none => language0
  let fmt := match resource_properties.lookup "format" with
    | some f => some f
    | none => fmt0
  let object_type0 := if e.local_dirs.contains local_path then "DIRECTORY" else "NOTEBOOK"
  let object_type := match resource_properties.lookup "object_type" with
    | some t => t
    | none => object_type0
  let e1 := wsImportStep e object_type local_path workspace_path language fmt overwrite
  let _ ← checkWsPathChange physical_id
  let g ← get_status_json e1 workspace_path
  Except.ok ((PhysicalId.wsPath workspace_path, DeployOutput.wsOut g.1), g.2)

/-- The prior-physical-id extraction of `deploy_resource`:
`resource_status[RESOURCE_PHYSICAL_ID] if resource_status else None`
(`KeyError` when the entry exists but lacks the key). -/
def getPriorPhysicalId (resource_status : Option ResourceStatus) :
    Except Err (Option PhysicalId) :=
  match resource_status with
  | some rs => (dictGet rs.physical_id "physical_id").map some
  | none => Except.ok none

/-- The `if/elif/else` service dispatch of `deploy_resource`: jobs and
workspace go to their drivers, anything else raises `StackError`. -/
def dispatch_service (e : Env) (resource_service : String) (resource_properties : Props)
    (physical_id : Option PhysicalId) (overwrite : Bool) :
    Except Err ((PhysicalId × DeployOutput) × Env) :=
  if resource_service == JOBS_SERVICE then
    deploy_job e resource_properties physical_id
  else if resource_service == WORKSPACE_SERVICE then
    deploy_workspace e resource_properties physical_id overwrite
  else
    Except.error (Err.stackError "Resource service not supported")

/-- `StackApi.deploy_resource`: reads `id`, `service`, `properties` from the
resource config and `physical_id` from the prior status when one is present,
dispatches on the service (unsupported services raise `StackError`), and
builds the new `ResourceStatus` with the current time. -/
def deploy_resource (e : Env) (resource_config : ResourceConfig)
    (resource_status : Option ResourceStatus) (overwrite : Bool) :
    Except Err (ResourceStatus × Env) := do
  let resource_id ← dictGet resource_config.id "id"
  let resource_service ← dictGet resource_config.service "service"
  let resource_properties ← dictGet resource_config.properties "properties"
  let physical_id ← getPriorPhysicalId resource_status
  let r ← dispatch_service e resource_service resource_properties physical_id overwrite
  let new_resource_status : ResourceStatus :=
    { id := some resource_id, service := some resource_service,
      timestamp := some r.2.now, physical_id := some r.1.1,
      deploy_output := some r.1.2 }
  Except.ok (new_resource_status, r.2)

/-- The per-deployed-entry loop of `StackApi.validate_status`: each entry must
carry `id`, `service` and `physical_id`, failing at the first violation. -/
def check_deployed_resources : List ResourceStatus → Except Err Unit
  | [] => Except.ok ()
  | rs :: rest =>
    if rs.id.isNone then Except.error (Err.stackError "id does not exist in deployed resource status")
    else if rs.service.isNone then Except.error (Err.stackError "service does not exist in deployed resource status")
    else if rs.physical_id.isNone then Except.error (Err.stackError "physical_id does not exist in deployed resource status")
    else check_deployed_resources rest

/-- `StackApi.validate_status`: `name`, `resources` and `deployed` must be
present, then each deployed entry is checked. -/
def validate_status (stack_status : StackDoc) : Except Err Unit :=
  if stack_status.name.isNone then Except.error (Err.stackError "name not in status")
  else if stack_status.resources.isNone then Except.error (Err.stackError "resources not in status")
  else match stack_status.deployed with
    | none => Except.error (Err.stackError "deployed not in status")
    | some dep => check_deployed_resources dep

/-- The per-resource loop of `StackApi.validate_config`: each resource must
carry `id`, `service` and `properties`, failing at the first violation. -/
def check_config_resources : List ResourceConfig → Except Err Unit
  | [] => Except.ok ()
  | rc :: rest =>
    if rc.id.isNone then Except.error (Err.stackError "id does not exist in resource config")
    else if rc.service.isNone then Except.error (Err.stackError "service does not exist in resource config")
    else if rc.properties.isNone then Except.error (Err.stackError "properties does not exist in resource config")
    else check_config_resources rest

/-- `StackApi.validate_config`: `name` and `resources` must be present, then
each resource is checked. -/
def validate_config (stack_config : StackDoc) : Except Err Unit :=
  if stack_config.name.isNone then Except.error (Err.stackError "name not in configuration")
  else match stack_config.resources with
    | none => Except.error (Err.stackError "resources not in configuration")
    | some rcs => check_config_resources rcs

/-- The identity index built by `_get_resource_to_status_map`: a Python dict
keyed by the `(id, service)` pair. -/
abbrev Idx := List ((String × String) × ResourceStatus)

/-- Python dict assignment `m[k] = v`: replace in place when the key exists
(keys occur at most once), append otherwise. -/
def idxInsert : Idx → (String × String) → ResourceStatus → Idx
  | [], k, v => [(k, v)]
  | kv :: rest, k, v => if kv.1 == k then (k, v) :: rest else kv :: idxInsert rest k v

/-- Python dict lookup on the identity index (keys are unique within the
index, so the first match is the match). -/
def idxLookup : Idx → (String × String) → Option ResourceStatus
  | [], _ => none
  | kv :: rest, k => if kv.1 == k then some kv.2 else idxLookup rest k

/-- The dict comprehension inside `_get_resource_to_status_map`: it reads
`resource_status['id']` and `resource_status['service']` of every deployed
entry in order (KeyError when absent) and assigns into the dict, so a later
entry with the same key overwrites an earlier one. -/
def buildStatusMap : Idx → List ResourceStatus → Except Err Idx
  | m, [] => Except.ok m
  | m, rs :: rest => do
      let i ← dictGet rs.id "id"
      let s ← dictGet rs.service "service"
      buildStatusMap (idxInsert m (i, s) rs) rest

/-- `StackApi._get_resource_to_status_map`: maps each deployed entry's
`(id, service)` to that entry. -/
def _get_resource_to_status_map (stack_status : StackDoc) : Except Err Idx := do
  let dep ← dictGet stack_status.deployed "deployed"
  buildStatusMap [] dep

/-- The prior-status branch at the top of `StackApi.deploy_config`:
`if stack_status:` validates it and builds the identity index, otherwise the
index is empty. -/
def priorIndex (stack_status : Option StackDoc) : Except Err Idx :=
  match stack_status with
  | none => Except.ok []
  | some st =>
    if st.truthy then do
      validate_status st
      _get_resource_to_status_map st
    else Except.ok []

/-- One iteration of the `deploy_config` loop: look up the prior status by the
resource's `(id, service)` and deploy the resource with it. -/
def loopStep (idx : Idx) (overwrite : Bool) (e : Env) (resource_config : ResourceConfig) :
    Except Err (ResourceStatus × Env) := do
  let i ← dictGet resource_config.id "id"
  let s ← dictGet resource_config.service "service"
  let resource_status := idxLookup idx (i, s)
  deploy_resource e resource_config resource_status overwrite

/-- The `deploy_config` loop over the configured resources in declaration
order, appending each new resource status. -/
def deployLoop (idx : Idx) (overwrite : Bool) :
    List ResourceConfig → List ResourceStatus → Env → Except Err (List ResourceStatus × Env)
  | [], acc, e => Except.ok (acc, e)
  | rc :: rest, acc, e => do
      let r ← loopStep idx overwrite e rc
      deployLoop idx overwrite rest (acc ++ [r.1]) r.2

/-- `StackApi.deploy_config`.  The Python builds the result by
`new_stack_status = stack_config` followed by `dict.update`, i.e. it mutates
the caller's configuration dict in place; the embedding therefore returns,
next to the environment, both the returned status and the value the caller's
`stack_config` variable refers to after the call — one and the same dict. -/
def deploy_config (stack_config : StackDoc) (stack_status : Option StackDoc)
    (overwrite : Bool) (e : Env) : Except Err (StackDoc × StackDoc × Env) := do
  validate_config stack_config
  let resource_id_to_status ← priorIndex stack_status
  let _stack_name ← dictGet stack_config.name "name"
  let resources ← dictGet stack_config.resources "resources"
  let r ← deployLoop resource_id_to_status overwrite resources [] e
  let new_stack_status : StackDoc :=
    { stack_config with deployed := some r.1, cli_version := some CLI_VERSION }
  validate_status new_stack_status
  Except.ok (new_stack_status, new_stack_status, r.2)

/-- The process-wide state touched by `StackApi.deploy`: the working
directory, the local JSON files by absolute path, and the remote
environment. -/
structure Sys where
  cwd : String
  files : List (String × StackDoc)
  env : Env
  deriving DecidableEq, Repr

/-- Resolution of a possibly relative path against the working directory
(`os.path.abspath` and the implicit resolution `open` performs). -/
def abspath (cwd p : String) : String :=
  if p.startsWith "/" then p else cwd ++ "/" ++ p

/-- `os.chdir`. -/
def os_chdir (s : Sys) (d : String) : Sys := { s with cwd := d }

/-- The empty dict `\x7b\x7d`. -/
def emptyDoc : StackDoc :=
  { name := none, resources := none, deployed := none, cli_version := none }

/-- `StackApi._load_json`: parse the JSON file at the path, an empty dict when
the file does not exist. -/
def _load_json (s : Sys) (path : String) : StackDoc :=
  match s.files.find? (fun f => f.1 == abspath s.cwd path) with
  | some f => f.2
  | none => emptyDoc

def upsertFile (l : List (String × StackDoc)) (p : String) (d : StackDoc) :
    List (String × StackDoc) :=
  if l.any (fun f => f.1 == p) then l.map (fun f => if f.1 == p then (p, d) else f)
  else l ++ [(p, d)]

/-- `StackApi._save_json`: write the document to the JSON file at the path. -/
def _save_json (s : Sys) (path : String) (data : StackDoc) : Sys :=
  { s with files := upsertFile s.files (abspath s.cwd path) data }

/-- Python `list.insert(-1, x)`: insert before the last element. -/
def insertBeforeLast (x : String) : List String → List String
  | [] => [x]
  | [a] => [x, a]
  | a :: b :: rest => a :: insertBeforeLast x (b :: rest)

/-- `StackApi._generate_stack_status_path`: split on dots, insert `deployed`
before the last component, join with dots. -/
def _generate_stack_status_path (stack_path : String) : String :=
  String.intercalate "." (insertBeforeLast STACK_STATUS_INSERT (stack_path.splitOn "."))

/-- `StackApi.deploy`: change into the configuration file's directory, load
config and prior status, deploy, save the new status, and change back to the
original working directory — also on the exception path, where the exception
is re-raised.  (The remote side effects of a *failed* `deploy_config` are not
tracked by the embedding: no claim observes the environment of a failed
run.) -/
def deploy (config_path : String) (overwrite : Bool) (s0 : Sys) : Except Err Unit × Sys :=
  let config_dir := dirname (abspath s0.cwd config_path)
  let cli_cwd := s0.cwd
  let s1 := os_chdir s0 config_dir
  let stack_config := _load_json s1 config_path
  let status_path := _generate_stack_status_path config_path
  let stack_status := _load_json s1 status_path
  match deploy_config stack_config (some stack_status) overwrite s1.env with
  | Except.ok (new_stack_status, _cfgAfter, e1) =>
      let s2 := _save_json { s1 with env := e1 } status_path new_stack_status
      (Except.ok (), os_chdir s2 cli_cwd)
  | Except.error err =>
      (Except.error err, os_chdir s1 cli_cwd)

/-! ### Concrete inputs used by counterexamples and witnesses -/

/-- A fresh remote: no jobs, no workspace objects, empty call log. -/
def env0 : Env :=
  { jobs := [], next_job_id := 1, ws_objects := [], local_dirs := [], now := 0, calls := [] }

/-- The `physical_id` column of the deployed list of a successful
`deploy_config` result. -/
def pidsOf (r : Except Err (StackDoc × StackDoc × Env)) : Option (List (Option PhysicalId)) :=
  match r with
  | Except.ok (st, _, _) => st.deployed.map (fun l => l.map (fun rs => rs.physical_id))
  | Except.error _ => none

/-- The call log of a successful `deploy_config` result. -/
def callsOf (r : Except Err (StackDoc × StackDoc × Env)) : List RCall :=
  match r with
  | Except.ok (_, _, e) => e.calls
  | Except.error _ => []

/-- The caller's configuration value after a successful `deploy_config`. -/
def callerCfgOf (r : Except Err (StackDoc × StackDoc × Env)) : Option StackDoc :=
  match r with
  | Except.ok (_, c, _) => some c
  | Except.error _ => none

/-- A configuration with two resources sharing the identity key
`("a", "jobs")` but declaring different job names. -/
def dupKeyCfg : StackDoc :=
  { name := some "s",
    resources := some [
      { id := some "a", service := some "jobs", properties := some [("name", "x")] },
      { id := some "a", service := some "jobs", properties := some [("name", "y")] } ],
    deployed := none, cli_version := none }

def dupRun1 : Except Err (StackDoc × StackDoc × Env) := deploy_config dupKeyCfg none false env0

def dupRun2 : Except Err (StackDoc × StackDoc × Env) :=
  match dupRun1 with
  | Except.ok (st1, _, e1) => deploy_config dupKeyCfg (some st1) false { e1 with calls := [] }
  | Except.error err => Except.error err

/-- A single-resource configuration (logical id `a`). -/
def oneJobCfg : StackDoc :=
  { name := some "s",
    resources := some [
      { id := some "a", service := some "jobs", properties := some [("name", "x")] } ],
    deployed := none, cli_version := none }

/-- A prior status whose only deployed entry has identity key `("b", "jobs")`,
a key that `oneJobCfg` does not configure. -/
def staleSt : StackDoc :=
  { name := some "s", resources := some [],
    deployed := some [
      { id := some "b", service := some "jobs", physical_id := some (PhysicalId.jobId 7),
        deploy_output := none, timestamp := none } ],
    cli_version := none }

def staleRes : Except Err (StackDoc × StackDoc × Env) :=
  deploy_config oneJobCfg (some staleSt) false env0

/-- Whether the result still carries the stale `("b", "jobs")` entry. -/
def staleRetained (r : Except Err (StackDoc × StackDoc × Env)) : Bool :=
  match r with
  | Except.ok (st, _, _) =>
      (st.deployed.getD []).any (fun rs => rs.id == some "b" && rs.service == some "jobs")
  | Except.error _ => false

def abortR1 : ResourceConfig :=
  { id := some "a", service := some "jobs", properties := some [("name", "x")] }

def abortR2 : ResourceConfig :=
  { id := some "b", service := some "jobs", properties := some [("name", "y")] }

def abortR3 : ResourceConfig :=
  { id := some "c", service := some "jobs", properties := some [("name", "z")] }

/-- A three-resource configuration whose middle resource will suffer a
transport error: its prior status points at job 99, which does not exist on
the remote, so `reset_job` answers with an HTTP error. -/
def abortCfg : StackDoc :=
  { name := some "s", resources := some [abortR1, abortR2, abortR3],
    deployed := none, cli_version := none }

/-- Prior status giving resource `b` the dangling physical id 99. -/
def abortSt : StackDoc :=
  { name := some "s", resources := some [],
    deployed := some [
      { id := some "b", service := some "jobs", physical_id := some (PhysicalId.jobId 99),
        deploy_output := none, timestamp := none } ],
    cli_version := none }

/-- The identity index `priorIndex` builds from `abortSt`. -/
def abortIdx : Idx :=
  [(("b", "jobs"),
    { id := some "b", service := some "jobs", physical_id := some (PhysicalId.jobId 99),
      deploy_output := none, timestamp := none })]

/-- The environment after the first resource of `abortCfg` deployed. -/
def abortE1 : Env :=
  match loopStep abortIdx false env0 abortR1 with
  | Except.ok (_, e) => e
  | Except.error _ => env0

/-- A remote carrying exactly one job, id 1, named `x`. -/
def oneJobEnv : Env :=
  { jobs := [{ job_id := 1, settings := [("name", "x")], creator_user_name := "u",
               created_time := 0 }],
    next_job_id := 2, ws_objects := [], local_dirs := [], now := 0, calls := [] }

/-! ### C4 (code bug): no fetch / not-found fallback on a stale physical_id -/

/-- C4: `StackApi.deploy_job` called with the prior physical id
`\x7b'job_id': 99\x7d` while job 99 no longer exists remotely does NOT fall back to
the no-physical-id branch: it calls `reset_job` directly (never fetching
first) and the HTTP error propagates, even though the fallback `put_job` on
the same remote would have succeeded and produced a physical id.  This
contradicts section 4.1 of the spec and the repository's own
`test_deploy_job`, which deploys a job whose physical id no longer exists and
expects a fresh physical id rather than an error. -/
theorem deploy_job_stale_physical_id_errors :
    deploy_job oneJobEnv [("name", "x")] (some (PhysicalId.jobId 99)) =
      Except.error (Err.httpError "RESOURCE_DOES_NOT_EXIST") ∧
    (put_job oneJobEnv [("name", "x")]).isOk = true := by
  exact ⟨rfl, rfl⟩

/-! ### C9: the working directory is restored on every path -/

/-- C9: `StackApi.deploy` switches to the configuration file's directory and
restores the caller's working directory before returning, both when
`deploy_config` succeeds and when any exception is raised mid-run (the
`except` clause restores the directory and re-raises). -/
theorem deploy_restores_cwd (config_path : String) (overwrite : Bool) (s0 : Sys) :
    ((deploy config_path overwrite s0).2).cwd = s0.cwd := by
  unfold deploy
  dsimp only
  split <;> rfl

/-! ### C1 counterexample: idempotence fails with duplicate identity keys -/

/-- C1 (counterexample): with the duplicate-key configuration `dupKeyCfg`
(two `jobs` resources both keyed `("a", "jobs")` but with different names),
both deploys succeed, yet the second run does not yield the same physical_id
for every resource: the first run creates jobs 1 and 2, the identity index of
the second run resolves the shared key last-wins to job 2, and both resources
then update job 2 — the deployed physical_id column changes from
`[job 1, job 2]` to `[job 2, job 2]`. -/
theorem deploy_config_second_run_changes_physical_id :
    dupRun1.isOk = true ∧ dupRun2.isOk = true ∧ pidsOf dupRun2 ≠ pidsOf dupRun1 := by
  refine ⟨rfl, rfl, ?_⟩
  decide

/-! ### C2 counterexample: stale status entries are dropped -/

/-- C2 (counterexample): deploying `oneJobCfg` (whose only resource is keyed
`("a", "jobs")`) against a prior status whose deployed list holds an entry
keyed `("b", "jobs")` succeeds, but the returned status no longer contains
that stale entry — `deploy_config` rebuilds `deployed` from the configured
resources only. -/
theorem stale_status_dropped :
    staleRes.isOk = true ∧ staleRetained staleRes = false := by
  exact ⟨rfl, rfl⟩

/-! ### C3 counterexample: one failing resource aborts the whole run -/

/-- C3 (counterexample): in `abortCfg` (three jobs resources) the second
resource's driver call raises a transport error (its prior physical id 99 is
dangling, so `reset_job` gets an HTTP error) while the first and third deploy
fine in isolation; `deploy_config` has no per-resource error handling, so the
whole run aborts with that error and no three-entry status document exists. -/
theorem partial_failure_aborts :
    priorIndex (some abortSt) = Except.ok abortIdx ∧
    (loopStep abortIdx false env0 abortR1).isOk = true ∧
    loopStep abortIdx false abortE1 abortR2 =
      Except.error (Err.httpError "RESOURCE_DOES_NOT_EXIST") ∧
    (loopStep abortIdx false abortE1 abortR3).isOk = true ∧
    deploy_config abortCfg (some abortSt) false env0 =
      Except.error (Err.httpError "RESOURCE_DOES_NOT_EXIST") := by
  exact ⟨rfl, rfl, rfl, rfl, rfl⟩

/-! ### C6 counterexample: duplicate identity keys pass validation -/

/-- A status document whose deployed list carries two entries with the same
identity key `("a", "jobs")`. -/
def dupKeySt : StackDoc :=
  { name := some "s", resources := some [],
    deployed := some [
      { id := some "a", service := some "jobs", physical_id := some (PhysicalId.jobId 1),
        deploy_output := none, timestamp := none },
      { id := some "a", service := some "jobs", physical_id := some (PhysicalId.jobId 2),
        deploy_output := none, timestamp := none } ],
    cli_version := none }

/-- C6 (counterexample): neither validator enforces identity-key uniqueness.
The duplicate-key configuration `dupKeyCfg` and the duplicate-key status
`dupKeySt` both validate successfully, and `deploy_config` on the
duplicate-key configuration proceeds all the way to the drivers: the run
succeeds and remote calls are issued, rather than a hard validation error
stopping the run before any remote call. -/
theorem duplicate_keys_pass_validation :
    validate_config dupKeyCfg = Except.ok () ∧
    validate_status dupKeySt = Except.ok () ∧
    (deploy_config dupKeyCfg none false env0).isOk = true ∧
    callsOf (deploy_config dupKeyCfg none false env0) ≠ [] := by
  refine ⟨rfl, rfl, rfl, ?_⟩
  decide

/-! ### C8 counterexample: the caller's configuration dict is mutated -/

/-- C8 (counterexample): after a successful `deploy_config`, the dict the
caller passed as `stack_config` is no longer the document it passed in — the
code executes `new_stack_status = stack_config` followed by `dict.update`, so
the caller's configuration has gained `deployed` and `cli_version` keys. -/
theorem deploy_config_mutates_caller :
    (deploy_config oneJobCfg none false env0).isOk = true ∧
    callerCfgOf (deploy_config oneJobCfg none false env0) ≠ some oneJobCfg := by
  refine ⟨rfl, ?_⟩
  decide

/-! ### C7: validation completeness of `validate_config` -/

/-- The resource loop of `validate_config` succeeds exactly when every
resource carries `id`, `service` and `properties`. -/
theorem check_config_resources_ok_iff (rcs : List ResourceConfig) :
    check_config_resources rcs = Except.ok () ↔
      ∀ r ∈ rcs, r.id.isSome ∧ r.service.isSome ∧ r.properties.isSome := by
  induction rcs with
  | nil => simp [check_config_resources]
  | cons r rest ih =>
      cases hid : r.id <;> cases hsv : r.service <;> cases hpr : r.properties <;>
        simp [check_config_resources, hid, hsv, hpr, ih]

theorem validate_config_ok_iff (cfg : StackDoc) :
    validate_config cfg = Except.ok () ↔
      (cfg.name.isSome ∧ ∃ rcs, cfg.resources = some rcs ∧
        ∀ r ∈ rcs, r.id.isSome ∧ r.service.isSome ∧ r.properties.isSome) := by
  unfold validate_config
  cases hn : cfg.name <;> cases hres : cfg.resources <;>
    simp [hn, hres, check_config_resources_ok_iff]

/-- The deployed-entry loop of `validate_status` succeeds exactly when every
entry carries `id`, `service` and `physical_id`. -/
theorem check_deployed_resources_ok_iff (dep : List ResourceStatus) :
    check_deployed_resources dep = Except.ok () ↔
      ∀ rs ∈ dep, rs.id.isSome ∧ rs.service.isSome ∧ rs.physical_id.isSome := by
  induction dep with
  | nil => simp [check_deployed_resources]
  | cons rs rest ih =>
      cases hid : rs.id <;> cases hsv : rs.service <;> cases hpr : rs.physical_id <;>
        simp [check_deployed_resources, hid, hsv, hpr, ih]

theorem validate_status_ok_iff (st : StackDoc) :
    validate_status st = Except.ok () ↔
      (st.name.isSome ∧ st.resources.isSome ∧ ∃ dep, st.deployed = some dep ∧
        ∀ rs ∈ dep, rs.id.isSome ∧ rs.service.isSome ∧ rs.physical_id.isSome) := by
  unfold validate_status
  cases hn : st.name <;> cases hres : st.resources <;> cases hdep : st.deployed <;>
    simp [hn, hres, hdep, check_deployed_resources_ok_iff]

/-- C7: `validate_config` succeeds exactly when `name` is present, the
`resources` key is present, and every resource carries `id`, `service` and
`properties`; equivalently it raises an error whenever any one of those
fields is missing, each case independently. -/
theorem validate_config_completeness (cfg : StackDoc) :
    validate_config cfg = Except.ok () ↔
      (cfg.name.isSome ∧ ∃ rcs, cfg.resources = some rcs ∧
        ∀ r ∈ rcs, r.id.isSome ∧ r.service.isSome ∧ r.properties.isSome) :=
  validate_config_ok_iff cfg

/-! ### Inversion and introduction for `deploy_config` -/

theorem bind_ok_iff {α β : Type} {x : Except Err α} {f : α → Except Err β} {b : β} :
    (x >>= f) = Except.ok b ↔ ∃ a, x = Except.ok a ∧ f a = Except.ok b := by
  cases x <;> simp [Bind.bind, Except.bind]

theorem dictGet_ok_iff {α : Type} {v : Option α} {k : String} {a : α} :
    dictGet v k = Except.ok a ↔ v = some a := by
  cases v <;> simp [dictGet]

theorem deploy_config_ok_inv {cfg : StackDoc} {st? : Option StackDoc} {ov : Bool} {e : Env}
    {st1 c1 : StackDoc} {e1 : Env}
    (h : deploy_config cfg st? ov e = Except.ok (st1, c1, e1)) :
    validate_config cfg = Except.ok () ∧
    ∃ idx rcs entries,
      priorIndex st? = Except.ok idx ∧
      cfg.resources = some rcs ∧
      deployLoop idx ov rcs [] e = Except.ok (entries, e1) ∧
      st1 = { cfg with deployed := some entries, cli_version := some CLI_VERSION } ∧
      c1 = st1 ∧
      validate_status st1 = Except.ok () := by
  unfold deploy_config at h
  rw [bind_ok_iff] at h
  obtain ⟨u0, hv, h⟩ := h
  rw [bind_ok_iff] at h
  obtain ⟨idx, hidx, h⟩ := h
  rw [bind_ok_iff] at h
  obtain ⟨nm, hnm, h⟩ := h
  rw [bind_ok_iff] at h
  obtain ⟨rcs, hrcs, h⟩ := h
  rw [bind_ok_iff] at h
  obtain ⟨r, hloop, h⟩ := h
  rw [bind_ok_iff] at h
  obtain ⟨u1, hvs, h⟩ := h
  cases u0
  refine ⟨hv, idx, rcs, r.1, hidx, dictGet_ok_iff.mp hrcs, ?_, ?_, ?_, ?_⟩
  · cases h
    exact hloop
  · cases h
    rfl
  · cases h
    rfl
  · cases h
    exact hvs

theorem deploy_config_ok_intro {cfg : StackDoc} {st? : Option StackDoc} {ov : Bool} {e : Env}
    {idx : Idx} {nm : String} {rcs : List ResourceConfig} {entries : List ResourceStatus}
    {e1 : Env}
    (hv : validate_config cfg = Except.ok ())
    (hn : cfg.name = some nm)
    (hidx : priorIndex st? = Except.ok idx)
    (hres : cfg.resources = some rcs)
    (hloop : deployLoop idx ov rcs [] e = Except.ok (entries, e1))
    (hvs : validate_status
      { cfg with deployed := some entries, cli_version := some CLI_VERSION } = Except.ok ()) :
    deploy_config cfg st? ov e =
      Except.ok ({ cfg with deployed := some entries, cli_version := some CLI_VERSION },
                 { cfg with deployed := some entries, cli_version := some CLI_VERSION }, e1) := by
  unfold deploy_config
  rw [hn, hres] at hvs
  rw [hv, hidx, hn, hres]
  simp [Bind.bind, Except.bind, dictGet, hloop, hvs]

/-! ### C8 amended: the status is the caller's configuration, updated in place -/

/-- C8 (amended): `deploy_config` builds the new status document by updating
the caller's configuration dict in place (`new_stack_status = stack_config`
followed by `dict.update`): whenever it returns, the caller's `stack_config`
is the very status object returned, which has gained the `deployed` and
`cli_version` keys while keeping the original `name` and `resources`. -/
theorem deploy_config_updates_caller_in_place
    (cfg : StackDoc) (st? : Option StackDoc) (ov : Bool) (e : Env)
    (st1 c1 : StackDoc) (e1 : Env)
    (h : deploy_config cfg st? ov e = Except.ok (st1, c1, e1)) :
    c1 = st1 ∧ st1.deployed.isSome ∧ st1.cli_version = some CLI_VERSION ∧
    st1.name = cfg.name ∧ st1.resources = cfg.resources := by
  obtain ⟨-, idx, rcs, entries, -, -, -, hst, hc, -⟩ := deploy_config_ok_inv h
  subst hst
  exact ⟨hc, rfl, rfl, rfl, rfl⟩

def mutSt : StackDoc :=
  match deploy_config oneJobCfg none false env0 with
  | Except.ok (st, _, _) => st
  | Except.error _ => emptyDoc

def mutCfgAfter : StackDoc :=
  match deploy_config oneJobCfg none false env0 with
  | Except.ok (_, c, _) => c
  | Except.error _ => emptyDoc

def mutEnv : Env :=
  match deploy_config oneJobCfg none false env0 with
  | Except.ok (_, _, e) => e
  | Except.error _ => env0

/-- Witness for `deploy_config_updates_caller_in_place` at the concrete
deploy of `oneJobCfg` against a fresh remote. -/
theorem deploy_config_updates_caller_in_place_witness :
    deploy_config oneJobCfg none false env0 = Except.ok (mutSt, mutCfgAfter, mutEnv) ∧
    (mutCfgAfter = mutSt ∧ mutSt.deployed.isSome = true ∧
      mutSt.cli_version = some CLI_VERSION ∧
      mutSt.name = oneJobCfg.name ∧ mutSt.resources = oneJobCfg.resources) :=
  ⟨rfl, deploy_config_updates_caller_in_place oneJobCfg none false env0
      mutSt mutCfgAfter mutEnv rfl⟩

/-! ### C10: the identity index resolves duplicate keys last-wins -/

/-- First-some choice on options (Python: a later dict assignment shadows an
earlier one, so the recursion below prefers the later candidate). -/
def optOr {α : Type} (a b : Option α) : Option α :=
  match a with
  | some x => some x
  | none => b

theorem optOr_none_right {α : Type} (a : Option α) : optOr a none = a := by
  cases a <;> rfl

theorem optOr_some_absorb {α : Type} (a : Option α) (y : α) (z : Option α) :
    optOr (optOr a (some y)) z = optOr a (some y) := by
  cases a <;> rfl

theorem getLast?_eq_optOr {α : Type} (a : α) (l : List α) :
    (a :: l).getLast? = optOr l.getLast? (some a) := by
  induction l generalizing a with
  | nil => rfl
  | cons b l ih =>
      rw [List.getLast?_cons_cons, ih b, optOr_some_absorb]

/-- Whether a deployed entry carries the identity key `k`. -/
def keyMatches (k : String × String) (rs : ResourceStatus) : Bool :=
  rs.id == some k.1 && rs.service == some k.2

/-- The last entry of the list carrying the identity key `k`, recursively. -/
def lastMatchKey (k : String × String) : List ResourceStatus → Option ResourceStatus
  | [] => none
  | rs :: rest => optOr (lastMatchKey k rest) (if keyMatches k rs then some rs else none)

theorem lastMatchKey_eq_filter_getLast (k : String × String) (dep : List ResourceStatus) :
    lastMatchKey k dep = (dep.filter (keyMatches k)).getLast? := by
  induction dep with
  | nil => rfl
  | cons rs rest ih =>
      by_cases hm : keyMatches k rs
      · rw [List.filter_cons_of_pos hm, getLast?_eq_optOr]
        simp only [lastMatchKey, hm, if_true, ih]
      · have hm2 : keyMatches k rs = false := Bool.eq_false_iff.mpr hm
        rw [List.filter_cons_of_neg hm]
        simp [lastMatchKey, hm2, ih, optOr_none_right]

theorem idxLookup_idxInsert (m : Idx) (k k2 : String × String) (v : ResourceStatus) :
    idxLookup (idxInsert m k v) k2 = if k2 = k then some v else idxLookup m k2 := by
  induction m with
  | nil =>
      by_cases h : k2 = k
      · subst h
        simp [idxInsert, idxLookup]
      · have h2 : ¬k = k2 := fun hh => h hh.symm
        simp [idxInsert, idxLookup, h, h2]
  | cons kv rest ih =>
      by_cases hk : kv.1 = k
      · by_cases h : k2 = k
        · subst h
          simp [idxInsert, idxLookup, hk]
        · have h2 : ¬k = k2 := fun hh => h hh.symm
          have h3 : ¬kv.1 = k2 := fun hh => h2 (hk ▸ hh)
          simp [idxInsert, idxLookup, hk, h, h2, h3]
      · by_cases hkv : kv.1 = k2
        · have h : ¬k2 = k := fun hh => hk (hkv.trans hh)
          simp [idxInsert, idxLookup, hk, hkv, h]
        · simp [idxInsert, idxLookup, hk, hkv, ih]

theorem keyMatches_eq {i s : String} {k : String × String} {rs : ResourceStatus}
    (hi : rs.id = some i) (hs : rs.service = some s) :
    keyMatches k rs = true ↔ k = (i, s) := by
  cases k with
  | mk k1 k2 =>
      simp only [keyMatches, hi, hs, Bool.and_eq_true, beq_iff_eq, Option.some.injEq,
        Prod.mk.injEq]
      constructor
      · rintro ⟨h1, h2⟩
        exact ⟨h1.symm, h2.symm⟩
      · rintro ⟨h1, h2⟩
        exact ⟨h1.symm, h2.symm⟩

theorem buildStatusMap_lookup (dep : List ResourceStatus) (m : Idx)
    (hf : ∀ rs ∈ dep, rs.id.isSome ∧ rs.service.isSome) :
    ∃ idx, buildStatusMap m dep = Except.ok idx ∧
      ∀ k, idxLookup idx k = optOr (lastMatchKey k dep) (idxLookup m k) := by
  induction dep generalizing m with
  | nil =>
      refine ⟨m, rfl, ?_⟩
      intro k
      simp [optOr, lastMatchKey]
  | cons rs rest ih =>
      obtain ⟨hida, hsrva⟩ := hf rs (List.mem_cons_self rs rest)
      obtain ⟨i, hi⟩ := Option.isSome_iff_exists.mp hida
      obtain ⟨s, hs⟩ := Option.isSome_iff_exists.mp hsrva
      obtain ⟨idx, hbuild, hlook⟩ := ih (idxInsert m (i, s) rs)
        (fun x hx => hf x (List.mem_cons_of_mem _ hx))
      refine ⟨idx, ?_, ?_⟩
      · simp only [buildStatusMap, hi, hs, dictGet, Bind.bind, Except.bind]
        exact hbuild
      · intro k
        rw [hlook k, idxLookup_idxInsert]
        by_cases hk : k = (i, s)
        · have hmatch : keyMatches k rs = true := (keyMatches_eq hi hs).mpr hk
          simp only [lastMatchKey, hmatch, if_true, if_pos hk, optOr_some_absorb]
        · have hmatch : keyMatches k rs = false :=
            Bool.eq_false_iff.mpr (fun hc => hk ((keyMatches_eq hi hs).mp hc))
          simp [lastMatchKey, hmatch, if_neg hk, optOr_none_right]

/-- C10: duplicate identity keys in a prior status are resolved silently by
last-wins.  Whenever every deployed entry carries `id` and `service` (in
particular when several entries share the same key), building the identity
index raises no error, the index maps each key to the last entry with that
key in list order, and the `deploy_config` loop then hands exactly that entry
(hence its `physical_id`) to `deploy_resource` for the matching resource. -/
theorem status_map_last_wins (st : StackDoc) (dep : List ResourceStatus)
    (hdep : st.deployed = some dep)
    (hf : ∀ rs ∈ dep, rs.id.isSome ∧ rs.service.isSome) :
    ∃ idx, _get_resource_to_status_map st = Except.ok idx ∧
      (∀ k : String × String, idxLookup idx k = (dep.filter (keyMatches k)).getLast?) ∧
      (∀ (rc : ResourceConfig) (i s : String), rc.id = some i → rc.service = some s →
        ∀ (ov : Bool) (e : Env),
          loopStep idx ov e rc =
            deploy_resource e rc ((dep.filter (keyMatches (i, s))).getLast?) ov) := by
  obtain ⟨idx, hbuild, hlook⟩ := buildStatusMap_lookup dep [] hf
  have hlook2 : ∀ k, idxLookup idx k = (dep.filter (keyMatches k)).getLast? := by
    intro k
    rw [hlook k, ← lastMatchKey_eq_filter_getLast]
    simp [idxLookup, optOr_none_right]
  refine ⟨idx, ?_, hlook2, ?_⟩
  · simp only [_get_resource_to_status_map, hdep, dictGet, Bind.bind, Except.bind]
    exact hbuild
  · intro rc i s hi hs ov e
    simp only [loopStep, hi, hs, dictGet, Bind.bind, Except.bind, hlook2]

/-- The deployed list of `dupKeySt`, two entries sharing key
`("a", "jobs")`. -/
def dupDep : List ResourceStatus :=
  [ { id := some "a", service := some "jobs", physical_id := some (PhysicalId.jobId 1),
      deploy_output := none, timestamp := none },
    { id := some "a", service := some "jobs", physical_id := some (PhysicalId.jobId 2),
      deploy_output := none, timestamp := none } ]

/-- Witness for `status_map_last_wins`, instantiated at the duplicate-key
status `dupKeySt`. -/
theorem status_map_last_wins_witness :
    (dupKeySt.deployed = some dupDep ∧
      ∀ rs ∈ dupDep, rs.id.isSome ∧ rs.service.isSome) ∧
    (∃ idx, _get_resource_to_status_map dupKeySt = Except.ok idx ∧
      (∀ k : String × String, idxLookup idx k = (dupDep.filter (keyMatches k)).getLast?) ∧
      (∀ (rc : ResourceConfig) (i s : String), rc.id = some i → rc.service = some s →
        ∀ (ov : Bool) (e : Env),
          loopStep idx ov e rc =
            deploy_resource e rc ((dupDep.filter (keyMatches (i, s))).getLast?) ov)) :=
  ⟨⟨rfl, by decide⟩, status_map_last_wins dupKeySt dupDep rfl (by decide)⟩

/-! ### C5: create-vs-update policy of `put_job` -/

/-- The environment after `put_job` takes the create branch: the list call,
the create call, and the fresh job appended. -/
def putJobCreateEnv (e : Env) (settings : Props) (nm : String) : Env :=
  { e with
      jobs := e.jobs ++ [createdJob e settings],
      next_job_id := e.next_job_id + 1,
      calls := e.calls ++ [RCall.listJobsCall nm, RCall.createJobCall settings] }

/-- The environment after `put_job` takes the single-match update branch: the
list call, the reset call, and the matched job's settings replaced. -/
def putJobResetEnv (e : Env) (settings : Props) (nm : String) (jid : Nat) : Env :=
  { e with
      calls := e.calls ++ [RCall.listJobsCall nm, RCall.resetJobCall jid settings],
      jobs := e.jobs.map
        (fun jb => if jb.job_id == jid then { jb with settings := settings } else jb) }

/-- C5: with no prior physical id, `put_job` searches the remote jobs by the
resource's declared name.  Zero matches: it creates a new job and returns the
freshly assigned job id (the list call followed by the create call).  Exactly
one match: it warns and updates that job in place, returning the existing id
as the physical id (the list call followed by the reset call — no create).
More than one match: the resource fails with a `StackError`. -/
theorem put_job_create_vs_update_policy (e : Env) (settings : Props) (nm : String)
    (hname : settings.lookup "name" = some nm) :
    (e.jobs.filter (fun j => j.settings.lookup "name" == some nm) = [] →
      ∃ e2, put_job e settings = Except.ok (e.next_job_id, e2) ∧
        e2.calls = e.calls ++ [RCall.listJobsCall nm, RCall.createJobCall settings]) ∧
    (∀ j, e.jobs.filter (fun jb => jb.settings.lookup "name" == some nm) = [j] →
      ∃ e2, put_job e settings = Except.ok (j.job_id, e2) ∧
        e2.calls = e.calls ++ [RCall.listJobsCall nm, RCall.resetJobCall j.job_id settings]) ∧
    (2 ≤ (e.jobs.filter (fun j => j.settings.lookup "name" == some nm)).length →
      ∃ msg, put_job e settings = Except.error (Err.stackError msg)) := by
  refine ⟨?_, ?_, ?_⟩
  · intro hms
    refine ⟨putJobCreateEnv e settings nm, ?_, ?_⟩
    · simp only [put_job, hname, _list_jobs_by_name, hms]
      simp [create_job, logCall, putJobCreateEnv, createdJob]
    · rfl
  · intro j hms
    have hmem : j ∈ e.jobs := by
      have hj : j ∈ e.jobs.filter (fun jb => jb.settings.lookup "name" == some nm) := by
        rw [hms]
        exact List.mem_singleton_self j
      exact (List.mem_filter.mp hj).1
    have hsome : (List.find? (fun jb => jb.job_id == j.job_id) e.jobs).isSome := by
      rw [List.find?_isSome]
      exact ⟨j, hmem, by simp⟩
    obtain ⟨j0, hj0⟩ := Option.isSome_iff_exists.mp hsome
    refine ⟨putJobResetEnv e settings nm j.job_id, ?_, ?_⟩
    · simp only [put_job, hname, _list_jobs_by_name, hms, update_job, reset_job, logCall, findJob]
      simp [hj0, Bind.bind, Except.bind, putJobResetEnv]
    · rfl
  · intro hlen
    rcases hfl : e.jobs.filter (fun j => j.settings.lookup "name" == some nm) with
        _ | ⟨a, _ | ⟨b, rest⟩⟩
    · rw [hfl] at hlen
      simp at hlen
    · rw [hfl] at hlen
      simp at hlen
    · refine ⟨"Multiple jobs with the same name already exist, aborting stack deployment", ?_⟩
      simp only [put_job, hname, _list_jobs_by_name, hfl]

/-- Witness for `put_job_create_vs_update_policy` at the remote `oneJobEnv`
(one job named `x`) with settings declaring the name `x`. -/
theorem put_job_create_vs_update_policy_witness :
    (Props.lookup [("name", "x")] "name" = some "x") ∧
    ((oneJobEnv.jobs.filter (fun j => j.settings.lookup "name" == some "x") = [] →
      ∃ e2, put_job oneJobEnv [("name", "x")] = Except.ok (oneJobEnv.next_job_id, e2) ∧
        e2.calls = oneJobEnv.calls ++ [RCall.listJobsCall "x", RCall.createJobCall [("name", "x")]]) ∧
    (∀ j, oneJobEnv.jobs.filter (fun jb => jb.settings.lookup "name" == some "x") = [j] →
      ∃ e2, put_job oneJobEnv [("name", "x")] = Except.ok (j.job_id, e2) ∧
        e2.calls = oneJobEnv.calls ++ [RCall.listJobsCall "x", RCall.resetJobCall j.job_id [("name", "x")]]) ∧
    (2 ≤ (oneJobEnv.jobs.filter (fun j => j.settings.lookup "name" == some "x")).length →
      ∃ msg, put_job oneJobEnv [("name", "x")] = Except.error (Err.stackError msg))) :=
  ⟨rfl, put_job_create_vs_update_policy oneJobEnv [("name", "x")] "x" rfl⟩

/-! ### C6 amended: validation ignores identity-key uniqueness -/

/-- C6 (amended): the validators check only field presence and never enforce
uniqueness of the identity key `(id, service)`: appending a duplicate of an
already validated resource (or deployed entry) still validates successfully,
so a duplicate-key document raises no hard error and `deploy_config` proceeds
to invoke drivers on it (as witnessed concretely by its counterexample). -/
theorem validators_ignore_duplicate_keys
    (cfg : StackDoc) (rcs : List ResourceConfig) (rc : ResourceConfig)
    (hres : cfg.resources = some rcs) (hmem : rc ∈ rcs)
    (hok : validate_config cfg = Except.ok ())
    (st : StackDoc) (dep : List ResourceStatus) (rs : ResourceStatus)
    (hdep : st.deployed = some dep) (hmem2 : rs ∈ dep)
    (hok2 : validate_status st = Except.ok ()) :
    validate_config { cfg with resources := some (rcs ++ [rc]) } = Except.ok () ∧
    validate_status { st with deployed := some (dep ++ [rs]) } = Except.ok () := by
  constructor
  · obtain ⟨hn, rcs2, hres2, hall⟩ := (validate_config_ok_iff cfg).mp hok
    rw [hres] at hres2
    cases hres2
    refine (validate_config_ok_iff _).mpr ⟨hn, rcs ++ [rc], rfl, ?_⟩
    intro r hr
    rcases List.mem_append.mp hr with hr | hr
    · exact hall r hr
    · rw [List.mem_singleton.mp hr]
      exact hall rc hmem
  · obtain ⟨hn, hres3, dep2, hdep2, hall⟩ := (validate_status_ok_iff st).mp hok2
    rw [hdep] at hdep2
    cases hdep2
    refine (validate_status_ok_iff _).mpr ⟨hn, hres3, dep ++ [rs], rfl, ?_⟩
    intro r hr
    rcases List.mem_append.mp hr with hr | hr
    · exact hall r hr
    · rw [List.mem_singleton.mp hr]
      exact hall rs hmem2

/-- The single resource of `oneJobCfg`. -/
def resA : ResourceConfig :=
  { id := some "a", service := some "jobs", properties := some [("name", "x")] }

/-- The first deployed entry of `dupKeySt`. -/
def entryA1 : ResourceStatus :=
  { id := some "a", service := some "jobs", physical_id := some (PhysicalId.jobId 1),
    deploy_output := none, timestamp := none }

/-- Witness for `validators_ignore_duplicate_keys`: duplicating the one
resource of `oneJobCfg` and the first deployed entry of `dupKeySt`. -/
theorem validators_ignore_duplicate_keys_witness :
    (oneJobCfg.resources = some [resA] ∧ resA ∈ [resA] ∧
      validate_config oneJobCfg = Except.ok () ∧
      dupKeySt.deployed = some dupDep ∧ entryA1 ∈ dupDep ∧
      validate_status dupKeySt = Except.ok ()) ∧
    (validate_config { oneJobCfg with resources := some ([resA] ++ [resA]) } = Except.ok () ∧
      validate_status { dupKeySt with deployed := some (dupDep ++ [entryA1]) } = Except.ok ()) :=
  ⟨⟨rfl, by decide, rfl, rfl, by decide, rfl⟩,
    validators_ignore_duplicate_keys oneJobCfg [resA] resA rfl (by decide) rfl
      dupKeySt dupDep entryA1 rfl (by decide) rfl⟩

/-! ### Loop lemmas for the `deploy_config` resource loop -/

theorem deploy_resource_ok_fields {e : Env} {rc : ResourceConfig}
    {rs? : Option ResourceStatus} {ov : Bool} {nrs : ResourceStatus} {e' : Env}
    (h : deploy_resource e rc rs? ov = Except.ok (nrs, e')) :
    nrs.id = rc.id ∧ nrs.service = rc.service ∧ nrs.physical_id.isSome ∧
    nrs.deploy_output.isSome ∧ nrs.timestamp.isSome := by
  unfold deploy_resource at h
  rw [bind_ok_iff] at h
  obtain ⟨i, hi, h⟩ := h
  rw [bind_ok_iff] at h
  obtain ⟨s, hs, h⟩ := h
  rw [bind_ok_iff] at h
  obtain ⟨props, hp, h⟩ := h
  rw [bind_ok_iff] at h
  obtain ⟨pid, hpid, h⟩ := h
  rw [bind_ok_iff] at h
  obtain ⟨r, hr, h⟩ := h
  cases h
  exact ⟨(dictGet_ok_iff.mp hi).symm, (dictGet_ok_iff.mp hs).symm, rfl, rfl, rfl⟩

theorem loopStep_ok_inv {idx : Idx} {ov : Bool} {e : Env} {rc : ResourceConfig}
    {nrs : ResourceStatus} {e1 : Env}
    (h : loopStep idx ov e rc = Except.ok (nrs, e1)) :
    ∃ i s, rc.id = some i ∧ rc.service = some s ∧
      deploy_resource e rc (idxLookup idx (i, s)) ov = Except.ok (nrs, e1) := by
  unfold loopStep at h
  rw [bind_ok_iff] at h
  obtain ⟨i, hi, h⟩ := h
  rw [bind_ok_iff] at h
  obtain ⟨s, hs, h⟩ := h
  exact ⟨i, s, dictGet_ok_iff.mp hi, dictGet_ok_iff.mp hs, h⟩

theorem forall₂_mem_right {α β : Type} {R : α → β → Prop} :
    ∀ {l1 : List α} {l2 : List β}, List.Forall₂ R l1 l2 → ∀ b ∈ l2, ∃ a ∈ l1, R a b := by
  intro l1 l2 h
  induction h with
  | nil => intro b hb; cases hb
  | cons hr _ ih =>
      intro b hb
      rcases List.mem_cons.mp hb with hb | hb
      · subst hb
        exact ⟨_, List.mem_cons_self _ _, hr⟩
      · obtain ⟨a, ha, har⟩ := ih b hb
        exact ⟨a, List.mem_cons_of_mem _ ha, har⟩

theorem deployLoop_fields (idx : Idx) (ov : Bool) :
    ∀ (rcs : List ResourceConfig) (acc sts : List ResourceStatus) (e e' : Env),
      deployLoop idx ov rcs acc e = Except.ok (sts, e') →
      ∃ new, sts = acc ++ new ∧
        List.Forall₂
          (fun rc nrs => nrs.id = rc.id ∧ nrs.service = rc.service ∧ nrs.physical_id.isSome)
          rcs new := by
  intro rcs
  induction rcs with
  | nil =>
      intro acc sts e e' h
      simp only [deployLoop] at h
      cases h
      exact ⟨[], (List.append_nil acc).symm, List.Forall₂.nil⟩
  | cons rc rest ih =>
      intro acc sts e e' h
      simp only [deployLoop] at h
      rw [bind_ok_iff] at h
      obtain ⟨r, hstep, hrest⟩ := h
      obtain ⟨i, s, hi, hs, hdep⟩ := loopStep_ok_inv hstep
      obtain ⟨hid, hsv, hpid, -, -⟩ := deploy_resource_ok_fields hdep
      obtain ⟨new, hsts, hall⟩ := ih (acc ++ [r.1]) sts r.2 e' hrest
      refine ⟨r.1 :: new, ?_, List.Forall₂.cons ⟨hid, hsv, hpid⟩ hall⟩
      rw [hsts, List.append_assoc]
      rfl

/-! ### C2 amended: the deployed list mirrors the current configuration -/

/-- C2 (amended): whenever `deploy_config` returns, the `deployed` list of the
returned status has exactly one entry per configured resource, in declaration
order, with matching `id` and `service`; in particular every prior-status
entry whose identity key no longer appears among the configured resources is
dropped — stale `ResourceStatus` entries are NOT retained. -/
theorem deployed_entries_match_config
    (cfg : StackDoc) (st? : Option StackDoc) (ov : Bool) (e : Env)
    (st1 c1 : StackDoc) (e1 : Env)
    (h : deploy_config cfg st? ov e = Except.ok (st1, c1, e1)) :
    ∃ rcs entries, cfg.resources = some rcs ∧ st1.deployed = some entries ∧
      List.Forall₂ (fun rc nrs => nrs.id = rc.id ∧ nrs.service = rc.service) rcs entries ∧
      ∀ nrs ∈ entries, ∃ rc ∈ rcs, nrs.id = rc.id ∧ nrs.service = rc.service := by
  obtain ⟨-, idx, rcs, entries, -, hres, hloop, hst, -, -⟩ := deploy_config_ok_inv h
  obtain ⟨new, hsts, hall⟩ := deployLoop_fields idx ov rcs [] entries e e1 hloop
  rw [List.nil_append] at hsts
  have hall2 : List.Forall₂ (fun rc nrs => nrs.id = rc.id ∧ nrs.service = rc.service)
      rcs entries := by
    rw [hsts]
    exact hall.imp (fun _ _ hab => ⟨hab.1, hab.2.1⟩)
  refine ⟨rcs, entries, hres, ?_, hall2, forall₂_mem_right hall2⟩
  rw [hst]

/-- Witness for `deployed_entries_match_config` at the concrete deploy of
`oneJobCfg` against a fresh remote. -/
theorem deployed_entries_match_config_witness :
    (deploy_config oneJobCfg none false env0 = Except.ok (mutSt, mutCfgAfter, mutEnv)) ∧
    (∃ rcs entries, oneJobCfg.resources = some rcs ∧ mutSt.deployed = some entries ∧
      List.Forall₂ (fun rc nrs => nrs.id = rc.id ∧ nrs.service = rc.service) rcs entries ∧
      ∀ nrs ∈ entries, ∃ rc ∈ rcs, nrs.id = rc.id ∧ nrs.service = rc.service) :=
  ⟨rfl, deployed_entries_match_config oneJobCfg none false env0 mutSt mutCfgAfter mutEnv rfl⟩

/-! ### C3 amended: the first driver error aborts the whole run -/

theorem deployLoop_append (idx : Idx) (ov : Bool) (xs ys : List ResourceConfig)
    (acc : List ResourceStatus) (e : Env) :
    deployLoop idx ov (xs ++ ys) acc e =
      match deployLoop idx ov xs acc e with
      | Except.ok (sts, e1) => deployLoop idx ov ys sts e1
      | Except.error err => Except.error err := by
  induction xs generalizing acc e with
  | nil => simp [deployLoop]
  | cons rc rest ih =>
      simp only [List.cons_append, deployLoop, Bind.bind, Except.bind]
      cases loopStep idx ov e rc with
      | ok r => simp [ih]
      | error err => rfl

/-- C3 (amended): there is no per-resource error isolation.  Whenever the
driver call of some resource raises an error (after the resources before it
deployed fine), `deploy_config` propagates that very error: the run aborts,
no status document is produced, and the remaining resources are not deployed.
(The status entries the code builds carry no `success` or `error_message`
field at all.) -/
theorem deploy_config_aborts_on_resource_error
    (cfg : StackDoc) (st? : Option StackDoc) (ov : Bool) (e : Env) (idx : Idx)
    (xs ys : List ResourceConfig) (y : ResourceConfig)
    (sts : List ResourceStatus) (e1 : Env) (err : Err)
    (hv : validate_config cfg = Except.ok ())
    (hidx : priorIndex st? = Except.ok idx)
    (hres : cfg.resources = some (xs ++ y :: ys))
    (hxs : deployLoop idx ov xs [] e = Except.ok (sts, e1))
    (hy : loopStep idx ov e1 y = Except.error err) :
    deploy_config cfg st? ov e = Except.error err := by
  obtain ⟨hnameSome, -⟩ := (validate_config_ok_iff cfg).mp hv
  obtain ⟨nm, hnm⟩ := Option.isSome_iff_exists.mp hnameSome
  have hsplit : deployLoop idx ov (xs ++ y :: ys) [] e = Except.error err := by
    rw [deployLoop_append, hxs]
    simp only [deployLoop, Bind.bind, Except.bind, hy]
  unfold deploy_config
  rw [hv, hidx, hnm, hres]
  simp only [Bind.bind, Except.bind, dictGet, hsplit]

/-- The resource statuses accumulated by the first (successful) step of the
aborting run. -/
def abortSts1 : List ResourceStatus :=
  match deployLoop abortIdx false [abortR1] [] env0 with
  | Except.ok (s, _) => s
  | Except.error _ => []

/-- Witness for `deploy_config_aborts_on_resource_error` at the concrete
three-resource configuration whose second resource holds a dangling physical
id. -/
theorem deploy_config_aborts_on_resource_error_witness :
    (validate_config abortCfg = Except.ok () ∧
      priorIndex (some abortSt) = Except.ok abortIdx ∧
      abortCfg.resources = some ([abortR1] ++ abortR2 :: [abortR3]) ∧
      deployLoop abortIdx false [abortR1] [] env0 = Except.ok (abortSts1, abortE1) ∧
      loopStep abortIdx false abortE1 abortR2 =
        Except.error (Err.httpError "RESOURCE_DOES_NOT_EXIST")) ∧
    deploy_config abortCfg (some abortSt) false env0 =
      Except.error (Err.httpError "RESOURCE_DOES_NOT_EXIST") :=
  ⟨⟨rfl, rfl, rfl, rfl, rfl⟩,
    deploy_config_aborts_on_resource_error abortCfg (some abortSt) false env0 abortIdx
      [abortR1] [abortR3] abortR2 abortSts1 abortE1 (Err.httpError "RESOURCE_DOES_NOT_EXIST")
      rfl rfl rfl rfl rfl⟩

/-! ### Environment monotonicity (groundwork for the idempotence claim) -/

/-- A job with the given id exists on the remote. -/
def jobExists (e : Env) (jid : Nat) : Prop :=
  ∃ j ∈ e.jobs, j.job_id = jid

/-- A workspace object with the given path exists on the remote. -/
def wsExists (e : Env) (p : String) : Prop :=
  ∃ o ∈ e.ws_objects, o.path = p

/-- Growth of the remote environment: existing jobs and workspace objects
persist, and previously issued calls remain in the log. -/
def envLe (e e' : Env) : Prop :=
  (∀ jid, jobExists e jid → jobExists e' jid) ∧
  (∀ p, wsExists e p → wsExists e' p) ∧
  (∀ c, c ∈ e.calls → c ∈ e'.calls)

/-- A step that issues no new `create_job` call. -/
def noNewCreates (e e' : Env) : Prop :=
  ∀ s, RCall.createJobCall s ∈ e'.calls → RCall.createJobCall s ∈ e.calls

theorem envLe_refl (e : Env) : envLe e e :=
  ⟨fun _ h => h, fun _ h => h, fun _ h => h⟩

theorem envLe_trans {e1 e2 e3 : Env} (h1 : envLe e1 e2) (h2 : envLe e2 e3) : envLe e1 e3 :=
  ⟨fun jid h => h2.1 jid (h1.1 jid h), fun p h => h2.2.1 p (h1.2.1 p h),
   fun c h => h2.2.2 c (h1.2.2 c h)⟩

theorem noNewCreates_refl (e : Env) : noNewCreates e e := fun _ h => h

theorem noNewCreates_trans {e1 e2 e3 : Env}
    (h1 : noNewCreates e1 e2) (h2 : noNewCreates e2 e3) : noNewCreates e1 e3 :=
  fun s h => h1 s (h2 s h)

theorem envLe_logCall (e : Env) (c : RCall) : envLe e (logCall e c) :=
  ⟨fun _ h => h, fun _ h => h, fun _ h2 => List.mem_append_left _ h2⟩

theorem noNewCreates_logCall {e : Env} {c : RCall}
    (hc : ∀ s, c ≠ RCall.createJobCall s) : noNewCreates e (logCall e c) := by
  intro s h
  rcases List.mem_append.mp h with h | h
  · exact h
  · exact absurd (List.mem_singleton.mp h).symm (hc s)

theorem envLe_create_job (e : Env) (settings : Props) : envLe e (create_job e settings).2 := by
  refine ⟨?_, fun p h => h, ?_⟩
  · rintro jid ⟨j, hj, hjid⟩
    exact ⟨j, List.mem_append_left _ hj, hjid⟩
  · intro c h
    exact List.mem_append_left _ h

theorem reset_job_ok_inv {e : Env} {n : Nat} {s : Props} {e' : Env}
    (h : reset_job e n s = Except.ok e') :
    e'.jobs = e.jobs.map (fun jb => if jb.job_id == n then { jb with settings := s } else jb) ∧
    e'.ws_objects = e.ws_objects ∧
    e'.calls = e.calls ++ [RCall.resetJobCall n s] ∧
    e'.now = e.now ∧ e'.next_job_id = e.next_job_id ∧ e'.local_dirs = e.local_dirs := by
  unfold reset_job at h
  dsimp only at h
  cases hfind : findJob (logCall e (RCall.resetJobCall n s)) n with
  | none =>
      rw [hfind] at h
      cases h
  | some j0 =>
      rw [hfind] at h
      cases h
      exact ⟨rfl, rfl, rfl, rfl, rfl, rfl⟩

theorem find?_isSome_of_jobExists {jobs : List Job} {n : Nat}
    (h : ∃ j ∈ jobs, j.job_id = n) :
    ∃ j0, List.find? (fun jb => jb.job_id == n) jobs = some j0 := by
  obtain ⟨j, hj, hjn⟩ := h
  have hs : (List.find? (fun jb => jb.job_id == n) jobs).isSome := by
    rw [List.find?_isSome]
    exact ⟨j, hj, by simp [hjn]⟩
  exact Option.isSome_iff_exists.mp hs

theorem reset_job_ok_of_exists {e : Env} {n : Nat} (s : Props) (h : jobExists e n) :
    ∃ e', reset_job e n s = Except.ok e' := by
  obtain ⟨j0, hj0⟩ := find?_isSome_of_jobExists h
  refine ⟨{ logCall e (RCall.resetJobCall n s) with
    jobs := e.jobs.map (fun j => if j.job_id == n then { j with settings := s } else j) }, ?_⟩
  unfold reset_job findJob
  dsimp only [logCall]
  rw [hj0]

theorem jobExists_map_settings (jobs : List Job) (n jid : Nat) (s : Props)
    (h : ∃ j ∈ jobs, j.job_id = jid) :
    ∃ j ∈ jobs.map (fun jb => if jb.job_id == n then { jb with settings := s } else jb),
      j.job_id = jid := by
  obtain ⟨j, hj, hjid⟩ := h
  refine ⟨(fun jb => if jb.job_id == n then { jb with settings := s } else jb) j,
    List.mem_map_of_mem _ hj, ?_⟩
  by_cases hc : (j.job_id == n) = true
  · dsimp only
    rw [if_pos hc]
    exact hjid
  · dsimp only
    rw [if_neg hc]
    exact hjid

theorem envLe_of_reset_job {e : Env} {n : Nat} {s : Props} {e' : Env}
    (h : reset_job e n s = Except.ok e') : envLe e e' := by
  obtain ⟨hjobs, hws, hcalls, -, -, -⟩ := reset_job_ok_inv h
  refine ⟨?_, ?_, ?_⟩
  · intro jid hex
    rw [jobExists, hjobs]
    exact jobExists_map_settings e.jobs n jid s hex
  · intro p hp
    rw [wsExists, hws]
    exact hp
  · intro c hc
    rw [hcalls]
    exact List.mem_append_left _ hc

theorem noNewCreates_of_reset_job {e : Env} {n : Nat} {s : Props} {e' : Env}
    (h : reset_job e n s = Except.ok e') : noNewCreates e e' := by
  obtain ⟨-, -, hcalls, -, -, -⟩ := reset_job_ok_inv h
  intro s2 hmem
  rw [hcalls] at hmem
  rcases List.mem_append.mp hmem with hmem | hmem
  · exact hmem
  · cases List.mem_singleton.mp hmem

theorem get_job_ok_inv {e : Env} {n : Nat} {j : Job} {e' : Env}
    (h : get_job e n = Except.ok (j, e')) :
    e'.jobs = e.jobs ∧ e'.ws_objects = e.ws_objects ∧
    e'.calls = e.calls ++ [RCall.getJobCall n] ∧ e'.now = e.now ∧ jobExists e n := by
  unfold get_job at h
  dsimp only at h
  cases hfind : findJob (logCall e (RCall.getJobCall n)) n with
  | none =>
      rw [hfind] at h
      cases h
  | some j0 =>
      have hm := List.mem_of_find?_eq_some hfind
      have hp := List.find?_some hfind
      rw [hfind] at h
      cases h
      exact ⟨rfl, rfl, rfl, rfl, ⟨_, hm, by simpa using hp⟩⟩

theorem get_job_ok_of_exists {e : Env} {n : Nat} (h : jobExists e n) :
    ∃ j e', get_job e n = Except.ok (j, e') := by
  obtain ⟨j0, hj0⟩ := find?_isSome_of_jobExists h
  refine ⟨j0, logCall e (RCall.getJobCall n), ?_⟩
  unfold get_job findJob
  dsimp only [logCall]
  rw [hj0]

theorem envLe_of_get_job {e : Env} {n : Nat} {j : Job} {e' : Env}
    (h : get_job e n = Except.ok (j, e')) : envLe e e' := by
  obtain ⟨hjobs, hws, hcalls, -, -⟩ := get_job_ok_inv h
  refine ⟨?_, ?_, ?_⟩
  · intro jid hex
    rw [jobExists, hjobs]
    exact hex
  · intro p hp
    rw [wsExists, hws]
    exact hp
  · intro c hc
    rw [hcalls]
    exact List.mem_append_left _ hc

theorem noNewCreates_of_get_job {e : Env} {n : Nat} {j : Job} {e' : Env}
    (h : get_job e n = Except.ok (j, e')) : noNewCreates e e' := by
  obtain ⟨-, -, hcalls, -, -⟩ := get_job_ok_inv h
  intro s2 hmem
  rw [hcalls] at hmem
  rcases List.mem_append.mp hmem with hmem | hmem
  · exact hmem
  · cases List.mem_singleton.mp hmem

/-! ### Workspace operation lemmas -/

theorem wsExists_upsert_self (l : List WsObject) (o : WsObject) :
    ∃ x ∈ upsertWs l o, x.path = o.path := by
  unfold upsertWs
  by_cases hany : l.any (fun x => x.path == o.path) = true
  · rw [if_pos hany]
    obtain ⟨x0, hx0, hpx⟩ := List.any_eq_true.mp hany
    refine ⟨(fun x => if x.path == o.path then o else x) x0, List.mem_map_of_mem _ hx0, ?_⟩
    dsimp only
    rw [if_pos hpx]
  · rw [if_neg hany]
    exact ⟨o, List.mem_append_right _ (List.mem_singleton_self o), rfl⟩

theorem wsExists_upsert_mono (l : List WsObject) (o : WsObject) (p : String)
    (h : ∃ x ∈ l, x.path = p) : ∃ x ∈ upsertWs l o, x.path = p := by
  obtain ⟨x, hx, hxp⟩ := h
  unfold upsertWs
  by_cases hany : l.any (fun y => y.path == o.path) = true
  · rw [if_pos hany]
    refine ⟨(fun y => if y.path == o.path then o else y) x, List.mem_map_of_mem _ hx, ?_⟩
    dsimp only
    by_cases hc : (x.path == o.path) = true
    · rw [if_pos hc]
      have hxo : x.path = o.path := by simpa using hc
      rw [← hxo]
      exact hxp
    · rw [if_neg hc]
      exact hxp
  · rw [if_neg hany]
    exact ⟨x, List.mem_append_left _ hx, hxp⟩

theorem ws_mkdirs_inv (e : Env) (d : String) :
    (ws_mkdirs e d).jobs = e.jobs ∧
    (ws_mkdirs e d).calls = e.calls ++ [RCall.mkdirsCall d] ∧
    (∀ p, wsExists e p → wsExists (ws_mkdirs e d) p) := by
  unfold ws_mkdirs
  dsimp only [logCall]
  by_cases hany :
      (e.ws_objects.any (fun o => o.path == d)) = true
  · rw [if_pos hany]
    exact ⟨rfl, rfl, fun p h => h⟩
  · rw [if_neg hany]
    refine ⟨rfl, rfl, ?_⟩
    rintro p ⟨x, hx, hxp⟩
    exact ⟨x, List.mem_append_left _ hx, hxp⟩

theorem envLe_ws_mkdirs (e : Env) (d : String) : envLe e (ws_mkdirs e d) := by
  obtain ⟨hjobs, hcalls, hws⟩ := ws_mkdirs_inv e d
  refine ⟨?_, hws, ?_⟩
  · intro jid h
    rw [jobExists, hjobs]
    exact h
  · intro c h
    rw [hcalls]
    exact List.mem_append_left _ h

theorem noNewCreates_ws_mkdirs (e : Env) (d : String) : noNewCreates e (ws_mkdirs e d) := by
  obtain ⟨-, hcalls, -⟩ := ws_mkdirs_inv e d
  intro s hmem
  rw [hcalls] at hmem
  rcases List.mem_append.mp hmem with hmem | hmem
  · exact hmem
  · cases List.mem_singleton.mp hmem

theorem import_workspace_inv (e : Env) (src dst : String) (lg fm : Option String) (ov : Bool) :
    (import_workspace e src dst lg fm ov).jobs = e.jobs ∧
    (import_workspace e src dst lg fm ov).calls = e.calls ++ [RCall.importCall src dst lg fm ov] ∧
    (∀ p, wsExists e p → wsExists (import_workspace e src dst lg fm ov) p) ∧
    wsExists (import_workspace e src dst lg fm ov) dst := by
  unfold import_workspace
  dsimp only [logCall]
  refine ⟨rfl, rfl, ?_, ?_⟩
  · intro p h
    exact wsExists_upsert_mono _ _ _ h
  · exact wsExists_upsert_self _ _

theorem import_workspace_dir_inv (e : Env) (src dst : String) (ov : Bool) :
    (import_workspace_dir e src dst ov).jobs = e.jobs ∧
    (import_workspace_dir e src dst ov).calls = e.calls ++ [RCall.importDirCall src dst ov] ∧
    (∀ p, wsExists e p → wsExists (import_workspace_dir e src dst ov) p) ∧
    wsExists (import_workspace_dir e src dst ov) dst := by
  unfold import_workspace_dir
  dsimp only [logCall]
  refine ⟨rfl, rfl, ?_, ?_⟩
  · intro p h
    exact wsExists_upsert_mono _ _ _ h
  · exact wsExists_upsert_self _ _

theorem get_status_json_ok_inv {e : Env} {p : String} {o : WsObject} {e' : Env}
    (h : get_status_json e p = Except.ok (o, e')) :
    e'.jobs = e.jobs ∧ e'.ws_objects = e.ws_objects ∧
    e'.calls = e.calls ++ [RCall.wsStatusCall p] ∧ wsExists e p := by
  unfold get_status_json at h
  dsimp only at h
  cases hfind : (logCall e (RCall.wsStatusCall p)).ws_objects.find? (fun x => x.path == p) with
  | none =>
      rw [hfind] at h
      cases h
  | some o0 =>
      have hm := List.mem_of_find?_eq_some hfind
      have hp := List.find?_some hfind
      rw [hfind] at h
      cases h
      exact ⟨rfl, rfl, rfl, ⟨_, hm, by simpa using hp⟩⟩

theorem get_status_json_ok_of_exists {e : Env} {p : String} (h : wsExists e p) :
    ∃ o e', get_status_json e p = Except.ok (o, e') := by
  obtain ⟨x, hx, hxp⟩ := h
  have hs : ((logCall e (RCall.wsStatusCall p)).ws_objects.find? (fun y => y.path == p)).isSome := by
    rw [List.find?_isSome]
    exact ⟨x, hx, by simp [hxp]⟩
  obtain ⟨o0, ho0⟩ := Option.isSome_iff_exists.mp hs
  refine ⟨o0, logCall e (RCall.wsStatusCall p), ?_⟩
  unfold get_status_json
  dsimp only
  rw [ho0]

theorem envLe_of_get_status_json {e : Env} {p : String} {o : WsObject} {e' : Env}
    (h : get_status_json e p = Except.ok (o, e')) : envLe e e' := by
  obtain ⟨hjobs, hws, hcalls, -⟩ := get_status_json_ok_inv h
  refine ⟨?_, ?_, ?_⟩
  · intro jid hex
    rw [jobExists, hjobs]
    exact hex
  · intro q hq
    rw [wsExists, hws]
    exact hq
  · intro c hc
    rw [hcalls]
    exact List.mem_append_left _ hc

theorem noNewCreates_of_get_status_json {e : Env} {p : String} {o : WsObject} {e' : Env}
    (h : get_status_json e p = Except.ok (o, e')) : noNewCreates e e' := by
  obtain ⟨-, -, hcalls, -⟩ := get_status_json_ok_inv h
  intro s hmem
  rw [hcalls] at hmem
  rcases List.mem_append.mp hmem with hmem | hmem
  · exact hmem
  · cases List.mem_singleton.mp hmem

/-! ### First-run facts about `put_job` and `deploy_job` -/

theorem envLe_of_put_job {e : Env} {s : Props} {n : Nat} {e' : Env}
    (h : put_job e s = Except.ok (n, e')) : envLe e e' := by
  unfold put_job at h
  cases hlk : s.lookup "name" with
  | none =>
      rw [hlk] at h
      cases h
  | some nm =>
      rw [hlk] at h
      dsimp only [_list_jobs_by_name] at h
      cases hfl : e.jobs.filter (fun j => j.settings.lookup "name" == some nm) with
      | nil =>
          rw [hfl] at h
          dsimp only at h
          cases h
          exact envLe_trans (envLe_logCall e (RCall.listJobsCall nm))
            (envLe_create_job (logCall e (RCall.listJobsCall nm)) s)
      | cons a rest =>
          cases rest with
          | nil =>
              rw [hfl] at h
              rw [bind_ok_iff] at h
              obtain ⟨e2, hup, hok⟩ := h
              cases hok
              unfold update_job at hup
              exact envLe_trans (envLe_logCall e (RCall.listJobsCall nm))
                (envLe_of_reset_job hup)
          | cons b rest2 =>
              rw [hfl] at h
              cases h

theorem deploy_job_ok_first {e : Env} {props : Props} {pid? : Option PhysicalId}
    {pid2 : PhysicalId} {out : DeployOutput} {e' : Env}
    (h : deploy_job e props pid? = Except.ok ((pid2, out), e')) :
    ∃ n, pid2 = PhysicalId.jobId n ∧ jobExists e' n ∧ envLe e e' := by
  unfold deploy_job at h
  rw [bind_ok_iff] at h
  obtain ⟨r, hr, h⟩ := h
  rw [bind_ok_iff] at h
  obtain ⟨g, hg, h⟩ := h
  cases h
  have hle1 : envLe e r.2 := by
    unfold jobIdForDeploy at hr
    cases pid? with
    | none => exact envLe_of_put_job hr
    | some pid =>
        cases pid with
        | jobId n0 =>
            dsimp only at hr
            rw [bind_ok_iff] at hr
            obtain ⟨n1, -, hr⟩ := hr
            rw [bind_ok_iff] at hr
            obtain ⟨e2, hup, hok⟩ := hr
            cases hok
            unfold update_job at hup
            exact envLe_of_reset_job hup
        | wsPath p0 =>
            dsimp only at hr
            cases hr
  obtain ⟨hjobs, -, -, -, hex⟩ := get_job_ok_inv hg
  refine ⟨r.1, rfl, ?_, envLe_trans hle1 (envLe_of_get_job hg)⟩
  rw [jobExists, hjobs]
  exact hex

/-! ### Second-run fact about `deploy_job` -/

theorem deploy_job_second {e : Env} (props : Props) {n : Nat} (hex : jobExists e n) :
    ∃ out e', deploy_job e props (some (PhysicalId.jobId n)) =
        Except.ok ((PhysicalId.jobId n, out), e') ∧
      envLe e e' ∧ noNewCreates e e' ∧ RCall.resetJobCall n props ∈ e'.calls ∧
      jobExists e' n := by
  obtain ⟨e1, hreset⟩ := reset_job_ok_of_exists props hex
  obtain ⟨hjobs1, -, hcalls1, -, -, -⟩ := reset_job_ok_inv hreset
  have hex1 : jobExists e1 n := by
    rw [jobExists, hjobs1]
    exact jobExists_map_settings e.jobs n n props hex
  obtain ⟨j, e2, hget⟩ := get_job_ok_of_exists hex1
  obtain ⟨hjobs2, -, hcalls2, -, -⟩ := get_job_ok_inv hget
  refine ⟨DeployOutput.jobOut j, e2, ?_, ?_, ?_, ?_, ?_⟩
  · simp only [deploy_job, jobIdForDeploy, update_job, Bind.bind, Except.bind, hreset, hget]
  · exact envLe_trans (envLe_of_reset_job hreset) (envLe_of_get_job hget)
  · exact noNewCreates_trans (noNewCreates_of_reset_job hreset) (noNewCreates_of_get_job hget)
  · rw [hcalls2, hcalls1]
    exact List.mem_append_left _ (List.mem_append_right _ (List.mem_singleton_self _))
  · rw [jobExists, hjobs2]
    exact hex1

/-! ### First- and second-run facts about `deploy_workspace` -/

theorem requireProp_ok_iff {props : Props} {k v : String} :
    requireProp props k = Except.ok v ↔ props.lookup k = some v := by
  unfold requireProp
  cases props.lookup k <;> simp

theorem envLe_import_workspace (e : Env) (src dst : String) (lg fm : Option String) (ov : Bool) :
    envLe e (import_workspace e src dst lg fm ov) := by
  obtain ⟨hjobs, hcalls, hmono, -⟩ := import_workspace_inv e src dst lg fm ov
  refine ⟨?_, hmono, ?_⟩
  · intro jid h
    rw [jobExists, hjobs]
    exact h
  · intro c h
    rw [hcalls]
    exact List.mem_append_left _ h

theorem noNewCreates_import_workspace (e : Env) (src dst : String) (lg fm : Option String)
    (ov : Bool) : noNewCreates e (import_workspace e src dst lg fm ov) := by
  obtain ⟨-, hcalls, -, -⟩ := import_workspace_inv e src dst lg fm ov
  intro s hmem
  rw [hcalls] at hmem
  rcases List.mem_append.mp hmem with hmem | hmem
  · exact hmem
  · cases List.mem_singleton.mp hmem

theorem envLe_import_workspace_dir (e : Env) (src dst : String) (ov : Bool) :
    envLe e (import_workspace_dir e src dst ov) := by
  obtain ⟨hjobs, hcalls, hmono, -⟩ := import_workspace_dir_inv e src dst ov
  refine ⟨?_, hmono, ?_⟩
  · intro jid h
    rw [jobExists, hjobs]
    exact h
  · intro c h
    rw [hcalls]
    exact List.mem_append_left _ h

theorem noNewCreates_import_workspace_dir (e : Env) (src dst : String) (ov : Bool) :
    noNewCreates e (import_workspace_dir e src dst ov) := by
  obtain ⟨-, hcalls, -, -⟩ := import_workspace_dir_inv e src dst ov
  intro s hmem
  rw [hcalls] at hmem
  rcases List.mem_append.mp hmem with hmem | hmem
  · exact hmem
  · cases List.mem_singleton.mp hmem

theorem envLe_wsImportStep (e : Env) (ot lp wp : String) (lg fm : Option String) (ov : Bool) :
    envLe e (wsImportStep e ot lp wp lg fm ov) := by
  unfold wsImportStep
  by_cases h1 : (ot == "NOTEBOOK") = true
  · rw [if_pos h1]
    exact envLe_trans (envLe_ws_mkdirs e (dirname wp))
      (envLe_import_workspace (ws_mkdirs e (dirname wp)) lp wp lg fm ov)
  · rw [if_neg h1]
    by_cases h2 : (ot == "DIRECTORY") = true
    · rw [if_pos h2]
      exact envLe_import_workspace_dir e lp wp ov
    · rw [if_neg h2]
      exact envLe_refl e

theorem noNewCreates_wsImportStep (e : Env) (ot lp wp : String) (lg fm : Option String)
    (ov : Bool) : noNewCreates e (wsImportStep e ot lp wp lg fm ov) := by
  unfold wsImportStep
  by_cases h1 : (ot == "NOTEBOOK") = true
  · rw [if_pos h1]
    exact noNewCreates_trans (noNewCreates_ws_mkdirs e (dirname wp))
      (noNewCreates_import_workspace (ws_mkdirs e (dirname wp)) lp wp lg fm ov)
  · rw [if_neg h1]
    by_cases h2 : (ot == "DIRECTORY") = true
    · rw [if_pos h2]
      exact noNewCreates_import_workspace_dir e lp wp ov
    · rw [if_neg h2]
      exact noNewCreates_refl e

theorem deploy_workspace_ok_first {e : Env} {props : Props} {pid? : Option PhysicalId}
    {ov : Bool} {pid2 : PhysicalId} {out : DeployOutput} {e' : Env}
    (h : deploy_workspace e props pid? ov = Except.ok ((pid2, out), e')) :
    ∃ p lp, pid2 = PhysicalId.wsPath p ∧ props.lookup "path" = some p ∧
      props.lookup "source_path" = some lp ∧ wsExists e' p ∧ envLe e e' := by
  unfold deploy_workspace at h
  rw [bind_ok_iff] at h
  obtain ⟨lp, hlp, h⟩ := h
  rw [bind_ok_iff] at h
  obtain ⟨wp, hwp, h⟩ := h
  dsimp only at h
  rw [bind_ok_iff] at h
  obtain ⟨u, -, h⟩ := h
  rw [bind_ok_iff] at h
  obtain ⟨g, hg, h⟩ := h
  cases h
  obtain ⟨hjobs, hws, -, hex⟩ := get_status_json_ok_inv hg
  refine ⟨wp, lp, rfl, requireProp_ok_iff.mp hwp, requireProp_ok_iff.mp hlp, ?_, ?_⟩
  · rw [wsExists, hws]
    exact hex
  · exact envLe_trans (envLe_wsImportStep e _ lp wp _ _ ov) (envLe_of_get_status_json hg)

theorem deploy_workspace_second {e : Env} {props : Props} {p lp : String} (ov : Bool)
    (hp : props.lookup "path" = some p) (hlp : props.lookup "source_path" = some lp)
    (hex : wsExists e p) :
    ∃ out e', deploy_workspace e props (some (PhysicalId.wsPath p)) ov =
        Except.ok ((PhysicalId.wsPath p, out), e') ∧
      envLe e e' ∧ noNewCreates e e' ∧ wsExists e' p := by
  have h1 : requireProp props "source_path" = Except.ok lp := requireProp_ok_iff.mpr hlp
  have h2 : requireProp props "path" = Except.ok p := requireProp_ok_iff.mpr hp
  have hle1 := envLe_wsImportStep e
    (match props.lookup "object_type" with
      | some t => t
      | none => if e.local_dirs.contains lp then "DIRECTORY" else "NOTEBOOK")
    lp p
    (match props.lookup "language" with
      | some l => some l
      | none => (to_language_and_format lp).map (fun x => x.1))
    (match props.lookup "format" with
      | some f => some f
      | none => (to_language_and_format lp).map (fun x => x.2))
    ov
  have hnc1 := noNewCreates_wsImportStep e
    (match props.lookup "object_type" with
      | some t => t
      | none => if e.local_dirs.contains lp then "DIRECTORY" else "NOTEBOOK")
    lp p
    (match props.lookup "language" with
      | some l => some l
      | none => (to_language_and_format lp).map (fun x => x.1))
    (match props.lookup "format" with
      | some f => some f
      | none => (to_language_and_format lp).map (fun x => x.2))
    ov
  obtain ⟨o, e2, hg⟩ := get_status_json_ok_of_exists (hle1.2.1 p hex)
  obtain ⟨-, hws2, -, -⟩ := get_status_json_ok_inv hg
  refine ⟨DeployOutput.wsOut o, e2, ?_, ?_, ?_, ?_⟩
  · simp only [deploy_workspace, h1, h2, checkWsPathChange, Bind.bind, Except.bind]
    rw [hg]
  · exact envLe_trans hle1 (envLe_of_get_status_json hg)
  · exact noNewCreates_trans hnc1 (noNewCreates_of_get_status_json hg)
  · rw [wsExists, hws2]
    exact hle1.2.1 p hex

/-! ### Per-resource invariant established by a successful deploy -/

/-- What a successful deploy of `rc` records in its status entry `rs`, stated
against the environment `e`: the identity key is copied, and the physical id
is the driver-appropriate one, pointing at an object that exists remotely
(for workspace entries the id is the declared `path` and `source_path` is
also present — both are needed to re-deploy). -/
def entryMatches (e : Env) (rc : ResourceConfig) (rs : ResourceStatus) : Prop :=
  rs.id = rc.id ∧ rs.service = rc.service ∧
  ((rc.service = some JOBS_SERVICE ∧ (∃ props, rc.properties = some props) ∧
      ∃ n, rs.physical_id = some (PhysicalId.jobId n) ∧ jobExists e n) ∨
   (rc.service = some WORKSPACE_SERVICE ∧ ∃ props p lp,
      rc.properties = some props ∧ props.lookup "path" = some p ∧
      props.lookup "source_path" = some lp ∧
      rs.physical_id = some (PhysicalId.wsPath p) ∧ wsExists e p))

theorem entryMatches_mono {e e' : Env} {rc : ResourceConfig} {rs : ResourceStatus}
    (hle : envLe e e') (h : entryMatches e rc rs) : entryMatches e' rc rs := by
  obtain ⟨h1, h2, h3⟩ := h
  refine ⟨h1, h2, ?_⟩
  rcases h3 with ⟨hs, hprops, n, hpid, hex⟩ | ⟨hs, props, p, lp, hpr, hp, hlp, hpid, hex⟩
  · exact Or.inl ⟨hs, hprops, n, hpid, hle.1 n hex⟩
  · exact Or.inr ⟨hs, props, p, lp, hpr, hp, hlp, hpid, hle.2.1 p hex⟩

theorem deploy_resource_ok_first {e : Env} {rc : ResourceConfig}
    {rs? : Option ResourceStatus} {ov : Bool} {nrs : ResourceStatus} {e' : Env}
    (h : deploy_resource e rc rs? ov = Except.ok (nrs, e')) :
    entryMatches e' rc nrs ∧ envLe e e' := by
  unfold deploy_resource at h
  rw [bind_ok_iff] at h
  obtain ⟨i, hi, h⟩ := h
  rw [bind_ok_iff] at h
  obtain ⟨s, hs, h⟩ := h
  rw [bind_ok_iff] at h
  obtain ⟨props, hpr, h⟩ := h
  rw [bind_ok_iff] at h
  obtain ⟨pid, -, h⟩ := h
  rw [bind_ok_iff] at h
  obtain ⟨r, hr, h⟩ := h
  obtain ⟨⟨pid2, out⟩, e2⟩ := r
  cases h
  have hi2 := dictGet_ok_iff.mp hi
  have hs2 := dictGet_ok_iff.mp hs
  have hpr2 := dictGet_ok_iff.mp hpr
  unfold dispatch_service at hr
  by_cases hj : (s == JOBS_SERVICE) = true
  · rw [if_pos hj] at hr
    obtain ⟨n, hpid2, hex, hle⟩ := deploy_job_ok_first hr
    have hsj : s = JOBS_SERVICE := by simpa using hj
    refine ⟨⟨hi2.symm, ?_, Or.inl ⟨?_, ⟨props, hpr2⟩, n, ?_, hex⟩⟩, hle⟩
    · rw [hs2]
    · rw [hs2, hsj]
    · rw [hpid2]
  · rw [if_neg hj] at hr
    by_cases hw : (s == WORKSPACE_SERVICE) = true
    · rw [if_pos hw] at hr
      obtain ⟨p, lp, hpid2, hp, hlp, hex, hle⟩ := deploy_workspace_ok_first hr
      have hsw : s = WORKSPACE_SERVICE := by simpa using hw
      refine ⟨⟨hi2.symm, ?_, Or.inr ⟨?_, props, p, lp, hpr2, hp, hlp, ?_, hex⟩⟩, hle⟩
      · rw [hs2]
      · rw [hs2, hsw]
      · rw [hpid2]
    · rw [if_neg hw] at hr
      cases hr

/-- The `ResourceStatus` dict `deploy_resource` assembles. -/
def mkStatus (i s : String) (pid : PhysicalId) (out : DeployOutput) (ts : Nat) : ResourceStatus :=
  { id := some i, service := some s, physical_id := some pid,
    deploy_output := some out, timestamp := some ts }

theorem deploy_resource_second {e : Env} {rc : ResourceConfig} {rs : ResourceStatus}
    (ov : Bool) (hm : entryMatches e rc rs) (hid : rc.id.isSome) :
    ∃ rs2 e2, deploy_resource e rc (some rs) ov = Except.ok (rs2, e2) ∧
      rs2.physical_id = rs.physical_id ∧ rs2.id = rs.id ∧ rs2.service = rs.service ∧
      envLe e e2 ∧ noNewCreates e e2 ∧
      (rc.service = some JOBS_SERVICE →
        ∃ n props, rc.properties = some props ∧
          rs.physical_id = some (PhysicalId.jobId n) ∧
          RCall.resetJobCall n props ∈ e2.calls) := by
  obtain ⟨i, hi⟩ := Option.isSome_iff_exists.mp hid
  obtain ⟨h1, h2, h3⟩ := hm
  rcases h3 with ⟨hs, ⟨props, hpr⟩, n, hpid, hex⟩ | ⟨hs, props, p, lp, hpr, hp, hlp, hpid, hex⟩
  · obtain ⟨out, e2, hdj, hle, hnc, hcal, -⟩ := deploy_job_second props hex
    refine ⟨mkStatus i JOBS_SERVICE (PhysicalId.jobId n) out e2.now, e2, ?_, ?_, ?_, ?_,
      hle, hnc, ?_⟩
    · simp only [deploy_resource, getPriorPhysicalId, dispatch_service, dictGet, hi, hs, hpr,
        hpid, Bind.bind, Except.bind, Except.map, beq_self_eq_true, if_true, hdj, mkStatus]
    · simp [mkStatus, hpid]
    · simp [mkStatus, h1, hi]
    · simp [mkStatus, h2, hs]
    · intro _
      exact ⟨n, props, hpr, hpid, hcal⟩
  · obtain ⟨out, e2, hdw, hle, hnc, -⟩ := deploy_workspace_second ov hp hlp hex
    have hne : (WORKSPACE_SERVICE == JOBS_SERVICE) = false := by decide
    refine ⟨mkStatus i WORKSPACE_SERVICE (PhysicalId.wsPath p) out e2.now, e2, ?_, ?_, ?_, ?_,
      hle, hnc, ?_⟩
    · simp only [deploy_resource, getPriorPhysicalId, dispatch_service, dictGet, hi, hs, hpr,
        hpid, Bind.bind, Except.bind, Except.map, hne, Bool.false_eq_true, if_false,
        beq_self_eq_true, if_true, hdw, mkStatus]
    · simp [mkStatus, hpid]
    · simp [mkStatus, h1, hi]
    · simp [mkStatus, h2, hs]
    · intro hjobs
      rw [hs] at hjobs
      exact absurd (Option.some.inj hjobs) (by decide)

/-! ### Loop lemmas for the two runs -/

theorem forall₂_conj {α β : Type} {R S : α → β → Prop} :
    ∀ {l1 : List α} {l2 : List β}, List.Forall₂ R l1 l2 → List.Forall₂ S l1 l2 →
      List.Forall₂ (fun a b => R a b ∧ S a b) l1 l2 := by
  intro l1 l2 h
  induction h with
  | nil =>
      intro h2
      exact List.Forall₂.nil
  | cons hr _ ih =>
      intro h2
      cases h2 with
      | cons hs htail => exact List.Forall₂.cons ⟨hr, hs⟩ (ih htail)

theorem deployLoop_first (idx : Idx) (ov : Bool) :
    ∀ (rcs : List ResourceConfig) (acc sts : List ResourceStatus) (e e' : Env),
      deployLoop idx ov rcs acc e = Except.ok (sts, e') →
      envLe e e' ∧ ∃ new, sts = acc ++ new ∧ List.Forall₂ (entryMatches e') rcs new := by
  intro rcs
  induction rcs with
  | nil =>
      intro acc sts e e' h
      simp only [deployLoop] at h
      cases h
      exact ⟨envLe_refl e, [], (List.append_nil acc).symm, List.Forall₂.nil⟩
  | cons rc rest ih =>
      intro acc sts e e' h
      simp only [deployLoop] at h
      rw [bind_ok_iff] at h
      obtain ⟨r, hstep, hrest⟩ := h
      obtain ⟨i, s, -, -, hdep⟩ := loopStep_ok_inv hstep
      obtain ⟨hm, hle1⟩ := deploy_resource_ok_first hdep
      obtain ⟨hle2, new, hsts, hall⟩ := ih (acc ++ [r.1]) sts r.2 e' hrest
      refine ⟨envLe_trans hle1 hle2, r.1 :: new, ?_,
        List.Forall₂.cons (entryMatches_mono hle2 hm) hall⟩
      rw [hsts, List.append_assoc]
      rfl

theorem deployLoop_second (idx : Idx) (ov : Bool) :
    ∀ (rcs : List ResourceConfig) (entries acc : List ResourceStatus) (e : Env),
      List.Forall₂ (fun rc rs => entryMatches e rc rs ∧ rc.id.isSome ∧
        (∀ i s, rc.id = some i → rc.service = some s →
          idxLookup idx (i, s) = some rs)) rcs entries →
      ∃ entries2 e2,
        deployLoop idx ov rcs acc e = Except.ok (acc ++ entries2, e2) ∧
        List.Forall₂ (fun rs rs2 => rs2.physical_id = rs.physical_id ∧ rs2.id = rs.id ∧
          rs2.service = rs.service) entries entries2 ∧
        envLe e e2 ∧ noNewCreates e e2 ∧
        List.Forall₂ (fun rc rs => rc.service = some JOBS_SERVICE →
          ∃ n props, rc.properties = some props ∧
            rs.physical_id = some (PhysicalId.jobId n) ∧
            RCall.resetJobCall n props ∈ e2.calls) rcs entries := by
  intro rcs
  induction rcs with
  | nil =>
      intro entries acc e hfa
      cases hfa
      exact ⟨[], e, by simp [deployLoop], List.Forall₂.nil, envLe_refl e,
        noNewCreates_refl e, List.Forall₂.nil⟩
  | cons rc rest ih =>
      intro entries acc e hfa
      cases hfa with
      | cons hhead htail =>
          obtain ⟨hm, hid, hlook⟩ := hhead
          obtain ⟨i, hi⟩ := Option.isSome_iff_exists.mp hid
          have hsv : ∃ s0, rc.service = some s0 := by
            rcases hm.2.2 with ⟨hs, -⟩ | ⟨hs, -⟩
            · exact ⟨JOBS_SERVICE, hs⟩
            · exact ⟨WORKSPACE_SERVICE, hs⟩
          obtain ⟨s0, hs0⟩ := hsv
          obtain ⟨rs2, e2, hdr, hpid2, hid2, hsv2, hle, hnc, hjobs⟩ :=
            deploy_resource_second ov hm hid
          have hstep : loopStep idx ov e rc = Except.ok (rs2, e2) := by
            simp only [loopStep, dictGet, hi, hs0, Bind.bind, Except.bind,
              hlook i s0 hi hs0, hdr]
          have htail2 : List.Forall₂ (fun rc2 rs3 => entryMatches e2 rc2 rs3 ∧
              rc2.id.isSome ∧ (∀ i2 s2, rc2.id = some i2 → rc2.service = some s2 →
                idxLookup idx (i2, s2) = some rs3)) rest _ :=
            htail.imp (fun _ _ hab => ⟨entryMatches_mono hle hab.1, hab.2.1, hab.2.2⟩)
          obtain ⟨entries2, e3, hloop2, hfa2, hle2, hnc2, hjobs2⟩ :=
            ih _ (acc ++ [rs2]) e2 htail2
          refine ⟨rs2 :: entries2, e3, ?_, List.Forall₂.cons ⟨hpid2, hid2, hsv2⟩ hfa2,
            envLe_trans hle hle2, noNewCreates_trans hnc hnc2, ?_⟩
          · simp only [deployLoop, Bind.bind, Except.bind, hstep]
            rw [hloop2, List.append_assoc]
            rfl
          · refine List.Forall₂.cons ?_ hjobs2
            intro hserv
            obtain ⟨n, props, hpr, hpid3, hcal⟩ := hjobs hserv
            exact ⟨n, props, hpr, hpid3, hle2.2.2 _ hcal⟩

/-! ### Identity-index lookups under key uniqueness -/

/-- The concrete `(id, service)` key of a validated resource config. -/
def realKey (rc : ResourceConfig) : String × String :=
  (rc.id.getD "", rc.service.getD "")

theorem lastMatchKey_none {k : String × String} :
    ∀ {dep : List ResourceStatus} {ks : List (String × String)},
      List.Forall₂ (fun rs k2 => rs.id = some k2.1 ∧ rs.service = some k2.2) dep ks →
      k ∉ ks → lastMatchKey k dep = none := by
  intro dep ks h
  induction h with
  | nil =>
      intro _
      rfl
  | @cons rs k2 rest kt hr htail ih =>
      intro hnot
      have hne : k ≠ k2 := fun hk => hnot (hk ▸ List.mem_cons_self _ _)
      have hnmem : k ∉ kt := fun hk => hnot (List.mem_cons_of_mem _ hk)
      have hmatch : keyMatches k rs = false := by
        refine Bool.eq_false_iff.mpr (fun hc => hne ?_)
        have := (keyMatches_eq hr.1 hr.2).mp hc
        rw [this]
      simp [lastMatchKey, ih hnmem, hmatch, optOr]

theorem lastMatchKey_of_nodup :
    ∀ {dep : List ResourceStatus} {ks : List (String × String)},
      List.Forall₂ (fun rs k2 => rs.id = some k2.1 ∧ rs.service = some k2.2) dep ks →
      ks.Nodup →
      List.Forall₂ (fun rs k2 => lastMatchKey k2 dep = some rs) dep ks := by
  intro dep ks h
  induction h with
  | nil =>
      intro _
      exact List.Forall₂.nil
  | @cons rs k2 rest kt hr htail ih =>
      intro hnd
      obtain ⟨hnotmem, hnd2⟩ := List.nodup_cons.mp hnd
      refine List.Forall₂.cons ?_ ?_
      · have hnone : lastMatchKey k2 rest = none := lastMatchKey_none htail hnotmem
        have hmatch : keyMatches k2 rs = true := (keyMatches_eq hr.1 hr.2).mpr rfl
        simp [lastMatchKey, hnone, hmatch, optOr]
      · refine (ih hnd2).imp ?_
        intro rs2 k3 hlast
        simp [lastMatchKey, hlast, optOr]

theorem forall₂_left_pred {α β : Type} {R : α → β → Prop} {P : α → Prop} :
    ∀ {l1 : List α} {l2 : List β}, List.Forall₂ R l1 l2 → (∀ a ∈ l1, P a) →
      List.Forall₂ (fun a b => R a b ∧ P a) l1 l2 := by
  intro l1 l2 h
  induction h with
  | nil =>
      intro _
      exact List.Forall₂.nil
  | @cons a b la lb hr htail ih =>
      intro hp
      exact List.Forall₂.cons ⟨hr, hp a (List.mem_cons_self _ _)⟩
        (ih (fun x hx => hp x (List.mem_cons_of_mem _ hx)))

theorem map_eq_of_forall₂ {α β γ : Type} {f : β → γ} {g : α → γ} :
    ∀ {l1 : List α} {l2 : List β}, List.Forall₂ (fun a b => f b = g a) l1 l2 →
      l2.map f = l1.map g := by
  intro l1 l2 h
  induction h with
  | nil => rfl
  | cons hr _ ih => simp [ih, hr]

/-! ### C1 amended: idempotence of re-deploy under distinct identity keys -/

/-- The status document `deploy_config` assembles from a configuration and a
deployed list. -/
def withDeployed (cfg : StackDoc) (entries : List ResourceStatus) : StackDoc :=
  { cfg with deployed := some entries, cli_version := some CLI_VERSION }

/-- C1 (amended): re-deploying an unchanged configuration whose identity keys
`(id, service)` are pairwise distinct, against the unchanged remote left by a
first successful deploy, with the status returned by the first run as the
prior status, succeeds again; every resource keeps the `physical_id` of the
first run; the second run issues no `create_job` call at all; and every jobs
resource receives an update call (`reset_job` on its own job id).  The
distinct-keys hypothesis is forced by the counterexample: with a duplicated
key the last-wins identity index redirects the earlier duplicate to the later
duplicate's physical id. -/
theorem deploy_config_idempotent_of_nodup_keys
    (cfg : StackDoc) (st0 : Option StackDoc) (ov : Bool) (e0 : Env)
    (st1 c1 : StackDoc) (e1 : Env)
    (h1 : deploy_config cfg st0 ov e0 = Except.ok (st1, c1, e1))
    (hnodup : ∀ rcs2, cfg.resources = some rcs2 →
      (rcs2.map (fun rc => (rc.id, rc.service))).Nodup) :
    ∃ st2 c2 e2 rcs entries1 entries2,
      deploy_config cfg (some st1) ov { e1 with calls := [] } = Except.ok (st2, c2, e2) ∧
      cfg.resources = some rcs ∧
      st1.deployed = some entries1 ∧ st2.deployed = some entries2 ∧
      entries2.map (fun rs => rs.physical_id) = entries1.map (fun rs => rs.physical_id) ∧
      (∀ s, RCall.createJobCall s ∉ e2.calls) ∧
      List.Forall₂ (fun rc rs => rc.service = some JOBS_SERVICE →
        ∃ n props, rc.properties = some props ∧
          rs.physical_id = some (PhysicalId.jobId n) ∧
          RCall.resetJobCall n props ∈ e2.calls) rcs entries1 := by
  obtain ⟨hv, idx0, rcs, entries1, hidx0, hres, hloop1, hst1, -, hvs1⟩ := deploy_config_ok_inv h1
  subst hst1
  obtain ⟨-, new, hnew, hall1⟩ := deployLoop_first idx0 ov rcs [] entries1 e0 e1 hloop1
  rw [List.nil_append] at hnew
  rw [← hnew] at hall1
  obtain ⟨hnmS, rcs2, hres2, hallcfg⟩ := (validate_config_ok_iff cfg).mp hv
  rw [hres] at hres2
  cases hres2
  obtain ⟨nm, hnm⟩ := Option.isSome_iff_exists.mp hnmS
  obtain ⟨-, -, dep1, hdep1, hfents⟩ := (validate_status_ok_iff _).mp hvs1
  dsimp only at hdep1
  cases hdep1
  obtain ⟨idx, hbuild, hlookOpt⟩ := buildStatusMap_lookup entries1 []
    (fun rs h => ⟨(hfents rs h).1, (hfents rs h).2.1⟩)
  have hlook : ∀ k, idxLookup idx k = lastMatchKey k entries1 := by
    intro k
    rw [hlookOpt k]
    simp [idxLookup, optOr_none_right]
  have hvs1b : validate_status (withDeployed cfg entries1) = Except.ok () := hvs1
  have hmap : _get_resource_to_status_map (withDeployed cfg entries1) = Except.ok idx := by
    simp only [_get_resource_to_status_map, withDeployed, dictGet, Bind.bind, Except.bind]
    exact hbuild
  have htruthy : (withDeployed cfg entries1).truthy = true := by
    simp [withDeployed, StackDoc.truthy, hnm]
  have hidx : priorIndex (some (withDeployed cfg entries1)) = Except.ok idx := by
    simp only [priorIndex, htruthy, if_true, Bind.bind, Except.bind, hvs1b, hmap]
  have hcomb := forall₂_left_pred
    (forall₂_left_pred hall1 (fun rc h => (hallcfg rc h).1))
    (fun rc h => (hallcfg rc h).2.1)
  have halign : List.Forall₂ (fun rs k2 => rs.id = some k2.1 ∧ rs.service = some k2.2)
      entries1 (rcs.map realKey) := by
    rw [List.forall₂_map_right_iff]
    refine (List.Forall₂.flip hcomb).imp ?_
    intro rs rc hab
    obtain ⟨⟨hm, hidS⟩, hsvS⟩ := hab
    obtain ⟨i, hi⟩ := Option.isSome_iff_exists.mp hidS
    obtain ⟨s, hs⟩ := Option.isSome_iff_exists.mp hsvS
    constructor
    · rw [hm.1, hi]
      simp [realKey, hi]
    · rw [hm.2.1, hs]
      simp [realKey, hs]
  have hndks : (rcs.map realKey).Nodup := by
    have h0 : (rcs.map (fun rc => (rc.id, rc.service))).Pairwise (fun a b => a ≠ b) :=
      hnodup rcs hres
    have h0p : rcs.Pairwise
        (fun a b => (a.id, a.service) ≠ (b.id, b.service)) := List.pairwise_map.mp h0
    have hgoal : rcs.Pairwise (fun a b => realKey a ≠ realKey b) := by
      refine List.Pairwise.imp_of_mem ?_ h0p
      intro a b ha hb hne heq
      apply hne
      obtain ⟨ia, hia⟩ := Option.isSome_iff_exists.mp (hallcfg a ha).1
      obtain ⟨sa, hsa⟩ := Option.isSome_iff_exists.mp (hallcfg a ha).2.1
      obtain ⟨ib, hib⟩ := Option.isSome_iff_exists.mp (hallcfg b hb).1
      obtain ⟨sb, hsb⟩ := Option.isSome_iff_exists.mp (hallcfg b hb).2.1
      simp only [realKey, hia, hsa, hib, hsb, Option.getD_some, Prod.mk.injEq] at heq
      rw [hia, hsa, hib, hsb, heq.1, heq.2]
    exact List.pairwise_map.mpr hgoal
  have hlast := lastMatchKey_of_nodup halign hndks
  have hlook2 : List.Forall₂ (fun rc rs => ∀ i s, rc.id = some i → rc.service = some s →
      idxLookup idx (i, s) = some rs) rcs entries1 := by
    have h2 := List.forall₂_map_right_iff.mp hlast
    refine (List.Forall₂.flip h2).imp ?_
    intro rc rs hab i s hi hs
    have hk : realKey rc = (i, s) := by simp [realKey, hi, hs]
    rw [hlook (i, s), ← hk]
    exact hab
  have hrun2 : List.Forall₂ (fun rc rs => entryMatches { e1 with calls := [] } rc rs ∧
      rc.id.isSome ∧ (∀ i s, rc.id = some i → rc.service = some s →
        idxLookup idx (i, s) = some rs)) rcs entries1 := by
    refine (forall₂_conj hcomb hlook2).imp ?_
    intro rc rs hab
    exact ⟨hab.1.1.1, hab.1.1.2, hab.2⟩
  obtain ⟨entries2, e2, hloop2, hfa2, hle2, hnc2, hjobs2⟩ :=
    deployLoop_second idx ov rcs entries1 [] { e1 with calls := [] } hrun2
  rw [List.nil_append] at hloop2
  have hvs2 : validate_status (withDeployed cfg entries2) = Except.ok () := by
    refine (validate_status_ok_iff _).mpr ⟨?_, ?_, entries2, ?_, ?_⟩
    · simpa [withDeployed] using hnmS
    · simp [withDeployed, hres]
    · simp [withDeployed]
    · intro rs2 hmem
      obtain ⟨rs1, hmem1, hfacts⟩ := forall₂_mem_right hfa2 rs2 hmem
      obtain ⟨hidS, hsvS, hpidS⟩ := hfents rs1 hmem1
      refine ⟨?_, ?_, ?_⟩
      · rw [hfacts.2.1]
        exact hidS
      · rw [hfacts.2.2]
        exact hsvS
      · rw [hfacts.1]
        exact hpidS
  have heq := deploy_config_ok_intro hv hnm hidx hres hloop2 hvs2
  refine ⟨_, _, e2, rcs, entries1, entries2, heq, hres, rfl, rfl, ?_, ?_, hjobs2⟩
  · exact map_eq_of_forall₂ (hfa2.imp (fun _ _ hab => hab.1))
  · intro s hmem
    exact absurd (hnc2 s hmem) (List.not_mem_nil _)

/-- Witness for `deploy_config_idempotent_of_nodup_keys` at the concrete
deploy of `oneJobCfg` (a single jobs resource, trivially distinct keys)
against a fresh remote. -/
theorem deploy_config_idempotent_witness :
    (deploy_config oneJobCfg none false env0 = Except.ok (mutSt, mutCfgAfter, mutEnv) ∧
      ∀ rcs2, oneJobCfg.resources = some rcs2 →
        (rcs2.map (fun rc => (rc.id, rc.service))).Nodup) ∧
    (∃ st2 c2 e2 rcs entries1 entries2,
      deploy_config oneJobCfg (some mutSt) false { mutEnv with calls := [] } =
        Except.ok (st2, c2, e2) ∧
      oneJobCfg.resources = some rcs ∧
      mutSt.deployed = some entries1 ∧ st2.deployed = some entries2 ∧
      entries2.map (fun rs => rs.physical_id) = entries1.map (fun rs => rs.physical_id) ∧
      (∀ s, RCall.createJobCall s ∉ e2.calls) ∧
      List.Forall₂ (fun rc rs => rc.service = some JOBS_SERVICE →
        ∃ n props, rc.properties = some props ∧
          rs.physical_id = some (PhysicalId.jobId n) ∧
          RCall.resetJobCall n props ∈ e2.calls) rcs entries1) :=
  ⟨⟨rfl, fun rcs2 h => by
      have h2 : some [resA] = some rcs2 := h
      cases h2
      decide⟩,
    deploy_config_idempotent_of_nodup_keys oneJobCfg none false env0 mutSt mutCfgAfter mutEnv
      rfl (fun rcs2 h => by
        have h2 : some [resA] = some rcs2 := h
        cases h2
        decide)⟩

end StackSpec
